import Mathlib

/-!
# privatenpm-cli: install and publish logic

A shallow embedding of `src/commands/install.js` and `src/commands/publish.js`.

JavaScript strings are modelled by Lean `String`s.  The only characters the
embedded code inspects individually are `@`, `*`, `.`, `/`, the letters of
`log` and the four line terminators, all of which are single UTF-16 code
units, so that splitting a string at one of them gives the same pieces
whether positions count code units or code points.
-/

set_option autoImplicit false

namespace PrivateNpm

/-! ## `parsePackageSpec` (install.js, lines 108-119) -/

/-- Scan for `String.prototype.lastIndexOf`: `i` is the index of the head of the
remaining suffix, `acc` the last index found so far (`-1` when none). -/
def lastIndexOfAux (c : Char) : List Char → Int → Int → Int
  | [], _, acc => acc
  | x :: xs, i, acc => lastIndexOfAux c xs (i + 1) (if x = c then i else acc)

/-- The method `s.lastIndexOf(c)` for a one-character search string: the greatest index
holding `c`, or `-1`. -/
def lastIndexOf (s : String) (c : Char) : Int :=
  lastIndexOfAux c s.toList 0 (-1)

/-- The method `s.substring(a, b)` for `0 ≤ a ≤ b`. -/
def substring (s : String) (a b : Nat) : String :=
  String.mk ((s.toList.take b).drop a)

/-- The method `s.substring(a)` for `0 ≤ a`. -/
def substringFrom (s : String) (a : Nat) : String :=
  String.mk (s.toList.drop a)

/-- The object `{ name, version }` returned by `parsePackageSpec`; `version = none`
is JavaScript `null`. -/
structure PackageSpec where
  name : String
  version : Option String
  deriving DecidableEq, Repr

/-- The function `parsePackageSpec(spec)`. -/
def parsePackageSpec (spec : String) : PackageSpec :=
  let atIndex := lastIndexOf spec '@'
  if atIndex > 0 then
    { name := substring spec 0 atIndex.toNat
      version := some (substringFrom spec (atIndex.toNat + 1)) }
  else
    { name := spec, version := none }

/-! ## `resolveVersion` (install.js, lines 121-138) -/

/-- The two functions of the third-party `semver` package that `resolveVersion` calls.
They are parameters of the embedding: `satisfies v r` is `semver.satisfies(v, r)` and
`rcompare a b` is `semver.rcompare(a, b)`, negative when `a` is the greater version,
positive when `b` is, and `0` when they compare equal. -/
structure Semver where
  satisfies : String → String → Bool
  rcompare : String → String → Int

/-- The field `dist` of a version record. -/
structure Dist where
  tarball : String
  deriving DecidableEq, Repr

/-- A version record of a metadata document; `dist = none` when the record has no
`dist` field. -/
structure VersionRecord where
  dist : Option Dist
  deriving DecidableEq, Repr

/-- A package metadata document.  `distTagsLatest` is the value of
`metadata['dist-tags']?.latest` (`none` when `dist-tags` or its `latest` is missing);
`versions` lists the entries of `metadata.versions` in `Object.keys` order. -/
structure Metadata where
  distTagsLatest : Option String
  versions : List (String × VersionRecord)
  deriving DecidableEq, Repr

/-- What `resolveVersion` returns: a string, `undefined` (an out-of-range array read) or
`null`. -/
inductive Resolved where
  | version (v : String)
  | undefined
  | null
  deriving DecidableEq, Repr

/-- JavaScript truthiness of a value that is `null`/`undefined` (`none`) or a string:
only a non-empty string is truthy. -/
def truthy : Option String → Bool
  | none => false
  | some s => s != ""

/-- Insertion of `x` in front of the first element it does not come after. -/
def sortInsert (cmp : String → String → Int) (x : String) : List String → List String
  | [] => [x]
  | y :: ys => if cmp x y ≤ 0 then x :: y :: ys else y :: sortInsert cmp x ys

/-- The method `Array.prototype.sort(cmp)`, as a stable insertion sort.  For a consistent
comparator every stable sort returns this same list. -/
def sort (cmp : String → String → Int) : List String → List String
  | [] => []
  | x :: xs => sortInsert cmp x (sort cmp xs)

/-- The array read `versions[versions.length - 1]`. -/
def lastKey (versions : List String) : Resolved :=
  match versions.getLast? with
  | some v => .version v
  | none => .undefined

/-- The function `resolveVersion(metadata, requestedVersion)`; `requestedVersion = none`
is `null` or `undefined`. -/
def resolveVersion (sv : Semver) (metadata : Metadata) (requestedVersion : Option String) :
    Resolved :=
  let versions := metadata.versions.map Prod.fst
  if !truthy requestedVersion || requestedVersion == some "latest" then
    match metadata.distTagsLatest with
    | some latest => if truthy (some latest) then .version latest else lastKey versions
    | none => lastKey versions
  else
    match requestedVersion with
    | none => .null
    | some requested =>
      if versions.contains requested then .version requested
      else
        let matching := versions.filter (fun v => sv.satisfies v requested)
        if matching.length > 0 then
          match (sort sv.rcompare matching).head? with
          | some v => .version v
          | none => .undefined
        else .null

/-! ### An executable instance of `Semver`

A small instance covering plain `MAJOR.MINOR.PATCH` versions and ranges that are either
such a version or a caret range `^MAJOR.MINOR.PATCH`.  It is used to evaluate the
examples of the specification. -/

/-- Value of a decimal digit. -/
def digitValue (c : Char) : Option Nat :=
  if c.isDigit then some (c.toNat - '0'.toNat) else none

/-- Reads `acc` followed by the digits of the list up to the first `.`, which must be
there; returns the number and what follows the `.`. -/
def readNumber : List Char → Option Nat → Option (Nat × List Char)
  | [], _ => none
  | c :: cs, acc =>
    if c = '.' then acc.map (fun n => (n, cs))
    else match digitValue c with
      | some d => readNumber cs (some (acc.getD 0 * 10 + d))
      | none => none

/-- Reads `acc` followed by the digits of the list, which must hold nothing else. -/
def readLastNumber : List Char → Option Nat → Option Nat
  | [], acc => acc
  | c :: cs, acc =>
    match digitValue c with
    | some d => readLastNumber cs (some (acc.getD 0 * 10 + d))
    | none => none

/-- Reads `MAJOR.MINOR.PATCH`. -/
def parseTriple (s : List Char) : Option (Nat × Nat × Nat) :=
  match readNumber s none with
  | none => none
  | some (major, r1) =>
    match readNumber r1 none with
    | none => none
    | some (minor, r2) =>
      match readLastNumber r2 none with
      | some patch => some (major, minor, patch)
      | none => none

/-- Precedence of two triples: `true` when the first is lower. -/
def tripleLt (a b : Nat × Nat × Nat) : Bool :=
  a.1 < b.1 || (a.1 == b.1 && (a.2.1 < b.2.1 || (a.2.1 == b.2.1 && a.2.2 < b.2.2)))

/-- Upper bound (exclusive) of the caret range of a triple. -/
def caretBound (t : Nat × Nat × Nat) : Nat × Nat × Nat :=
  if t.1 ≠ 0 then (t.1 + 1, 0, 0)
  else if t.2.1 ≠ 0 then (0, t.2.1 + 1, 0)
  else (0, 0, t.2.2 + 1)

/-- The instance: `satisfies` and `rcompare` on plain triples and caret ranges. -/
def Semver.plain : Semver where
  satisfies v r :=
    match parseTriple v.toList with
    | none => false
    | some t =>
      match r.toList with
      | '^' :: rest =>
        match parseTriple rest with
        | some lo => !tripleLt t lo && tripleLt t (caretBound lo)
        | none => false
      | rs =>
        match parseTriple rs with
        | some u => t == u
        | none => false
  rcompare a b :=
    match parseTriple a.toList, parseTriple b.toList with
    | some x, some y => if tripleLt y x then -1 else if tripleLt x y then 1 else 0
    | _, _ => 0

/-- The metadata document of the specification's examples: versions `1.0.0`, `1.2.0`,
`2.0.0` with `dist-tags.latest = 1.2.0`. -/
def exampleMetadata : Metadata where
  distTagsLatest := some "1.2.0"
  versions :=
    [("1.0.0", { dist := some { tarball := "https://registry.example/p/-/p-1.0.0.tgz" } }),
     ("1.2.0", { dist := some { tarball := "https://registry.example/p/-/p-1.2.0.tgz" } }),
     ("2.0.0", { dist := some { tarball := "https://registry.example/p/-/p-2.0.0.tgz" } })]

/-! ## The install loop (install.js, lines 10-106 and 140-156) -/

/-- A JavaScript object with string values, as the list of its entries in key order.  The
keys are package names, none of which is taken to be an array index (a canonical numeric
string), so that key order is insertion order. -/
abbrev DepMap := List (String × String)

/-- The assignment `obj[k] = v`: an existing key keeps its place and takes the new value,
a new key goes last. -/
def DepMap.set : DepMap → String → String → DepMap
  | [], k, v => [(k, v)]
  | (k', v') :: rest, k, v =>
    if k' = k then (k, v) :: rest else (k', v') :: DepMap.set rest k v

/-- The read `obj[k]`. -/
def DepMap.get (m : DepMap) (k : String) : Option String :=
  (m.find? (fun e => e.1 == k)).map Prod.snd

/-- The object spread `{ ...a, ...b }`. -/
def DepMap.spread (a b : DepMap) : DepMap :=
  b.foldl (fun acc e => DepMap.set acc e.1 e.2) a

/-- The local manifest `package.json`: the fields the commands read or write, and the
remaining keys in `other`.  A field is `none` when its key is missing. -/
structure Manifest where
  name : Option String
  version : Option String
  description : Option String
  main : Option String
  scripts : Option DepMap
  dependencies : Option DepMap
  devDependencies : Option DepMap
  other : List (String × String)
  deriving DecidableEq, Repr

/-- The options object of `install`: each flag is `none` when `undefined`. -/
structure Options where
  saveDev : Option Bool
  global : Option Bool
  deriving DecidableEq, Repr

/-- Truthiness of a flag that is `undefined` or a boolean. -/
def flagSet : Option Bool → Bool
  | some b => b
  | none => false

/-- What `getPackageMetadata(name)` does in one iteration: it throws, returns `null`
(HTTP 404) or returns a document. -/
inductive Fetched where
  | threw
  | notFound
  | found (metadata : Metadata)
  deriving DecidableEq, Repr

/-- What the environment does while one package spec is processed: the result of the
metadata request, whether `downloadTarball` succeeds, whether the file-system steps
(`mkdir`, `writeFile`, `tar.extract`, `unlink`) succeed, and whether a manifest write
succeeds. -/
structure Outcome where
  metadata : Fetched
  download : Bool
  extract : Bool
  manifestWrite : Bool
  deriving DecidableEq, Repr

/-- State of a run of `install`: the manifest file, the arrays `installed` and `failed`,
and three logs: the parsed spec of each iteration, the calls of `updatePackageJson`
(name, version, `isDev`) and the manifests written by `writePackageJson`. -/
structure InstallState where
  manifest : Option Manifest
  installed : List (String × String)
  failed : List String
  processed : List PackageSpec
  updateCalls : List (String × String × Bool)
  manifestWrites : List Manifest
  deriving DecidableEq, Repr

/-- Modelled from the spec: `readPackageJson` of `utils/config.js`, which is not in the
sources.  It reads the local manifest and returns it, or `null` when there is none. -/
def readPackageJson (st : InstallState) : Option Manifest :=
  st.manifest

/-- Modelled from the spec: `writePackageJson` of `utils/config.js`, which is not in the
sources.  It rewrites the whole local manifest; `ok = false` is a write that throws and
leaves the file as it was.  The result is `.error st` when the call throws in state `st`. -/
def writePackageJson (st : InstallState) (pkg : Manifest) (ok : Bool) :
    Except InstallState InstallState :=
  if ok then
    .ok { st with manifest := some pkg, manifestWrites := st.manifestWrites ++ [pkg] }
  else .error st

/-- The assignments `if (!pkg[depKey]) pkg[depKey] = {}; pkg[depKey][packageName] = value`
of `updatePackageJson`. -/
def Manifest.pin (pkg : Manifest) (isDev : Bool) (packageName value : String) : Manifest :=
  if isDev then
    { pkg with devDependencies := some (DepMap.set (pkg.devDependencies.getD []) packageName value) }
  else
    { pkg with dependencies := some (DepMap.set (pkg.dependencies.getD []) packageName value) }

/-- The function `updatePackageJson(packageName, version, isDev)`; `writeOk` says whether
the write of this call succeeds.  The result is `.error st` when the call throws in state
`st`. -/
def updatePackageJson (st : InstallState) (writeOk : Bool) (packageName version : String)
    (isDev : Bool) : Except InstallState InstallState :=
  let st := { st with updateCalls := st.updateCalls ++ [(packageName, version, isDev)] }
  match readPackageJson st with
  | none => .ok st
  | some pkg => writePackageJson st (pkg.pin isDev packageName ("^" ++ version)) writeOk

/-- The statement `failed.push(name)`. -/
def InstallState.fail (st : InstallState) (name : String) : InstallState :=
  { st with failed := st.failed ++ [name] }

/-- One iteration of the loop `for (const pkgSpec of packages)`, under the outcome `out`
of the environment.  A read of `metadata.versions[targetVersion].dist.tarball` that meets a
missing record or a missing `dist` throws, and is caught like every other exception of the
iteration. -/
def installStep (sv : Semver) (options : Options) (st : InstallState) (pkgSpec : String)
    (out : Outcome) : InstallState :=
  let spec := parsePackageSpec pkgSpec
  let st := { st with processed := st.processed ++ [spec] }
  match out.metadata with
  | .threw => st.fail spec.name
  | .notFound => st.fail spec.name
  | .found metadata =>
    match resolveVersion sv metadata spec.version with
    | .undefined => st.fail spec.name
    | .null => st.fail spec.name
    | .version targetVersion =>
      if targetVersion = "" then st.fail spec.name
      else
        match (metadata.versions.find? (fun e => e.1 == targetVersion)).map Prod.snd with
        | none => st.fail spec.name
        | some versionData =>
          match versionData.dist with
          | none => st.fail spec.name
          | some _ =>
            if !out.download then st.fail spec.name
            else if !out.extract then st.fail spec.name
            else
              let st := { st with installed := st.installed ++ [(spec.name, targetVersion)] }
              if flagSet options.saveDev || options.global == none then
                match updatePackageJson st out.manifestWrite spec.name targetVersion
                    (flagSet options.saveDev) with
                | .ok st' => st'
                | .error st' => st'.fail spec.name
              else st

/-- The loop `for (const pkgSpec of packages)`: `env k` is the outcome of the environment
during iteration `k`. -/
def installLoop (sv : Semver) (options : Options) (env : Nat → Outcome) :
    Nat → InstallState → List String → InstallState
  | _, st, [] => st
  | k, st, pkgSpec :: rest =>
    installLoop sv options env (k + 1) (installStep sv options st pkgSpec (env k)) rest

/-- State at the start of a run over the manifest file `manifest`. -/
def InstallState.init (manifest : Option Manifest) : InstallState where
  manifest := manifest
  installed := []
  failed := []
  processed := []
  updateCalls := []
  manifestWrites := []

/-- The function `install(packages, options)`: the state when it returns.  `mkdirOk` says
whether the initial `fs.mkdir` of `node_modules` succeeds; with no package specs the list
is taken from the manifest. -/
def install (sv : Semver) (mkdirOk : Bool) (env : Nat → Outcome) (manifest : Option Manifest)
    (packages : List String) (options : Options) : InstallState :=
  let st := InstallState.init manifest
  if !mkdirOk then st
  else if packages.length = 0 then
    match readPackageJson st with
    | none => st
    | some pkg =>
      let allDeps := DepMap.spread (pkg.dependencies.getD []) (pkg.devDependencies.getD [])
      let packages := allDeps.map Prod.fst
      if packages.length = 0 then st
      else installLoop sv options env 0 st packages
  else installLoop sv options env 0 st packages

/-! ## File enumeration of publish (publish.js, lines 138-176) -/

/-- The array `ignorePatterns`. -/
def ignorePatterns : List String :=
  ["node_modules", ".git", ".privatenpm-temp", ".env", ".env.local", "*.log"]

/-- A character matcher of a regular expression: `.` or a literal character. -/
inductive Atom where
  | any
  | chr (c : Char)
  deriving DecidableEq, Repr

/-- A term of a regular expression: an atom, or an atom under `*`. -/
inductive Piece where
  | one (a : Atom)
  | star (a : Atom)
  deriving DecidableEq, Repr

/-- Line terminators, which `.` does not match. -/
def isLineTerminator (c : Char) : Bool :=
  c == '\n' || c == '\r' || c == Char.ofNat 0x2028 || c == Char.ofNat 0x2029

/-- Characters with a syntactic role in a pattern, other than `.`. -/
def isSpecialChar (c : Char) : Bool :=
  ['\\', '^', '$', '*', '+', '?', '(', ')', '[', ']', '\x7b', '\x7d', '|'].contains c

/-- The atom a pattern character stands for; `none` for a character with a syntactic role. -/
def parseAtom (c : Char) : Option Atom :=
  if c = '.' then some .any else if isSpecialChar c then none else some (.chr c)

/-- The constructor `new RegExp(source)` for sources made of literal characters, `.` and a
`*` after one of them; `none` for any other source (among them those that raise a
`SyntaxError`, such as a `*` with nothing to repeat). -/
def parseRegExp : List Char → Option (List Piece)
  | [] => some []
  | c :: '*' :: rest =>
    match parseAtom c, parseRegExp rest with
    | some a, some ps => some (.star a :: ps)
    | _, _ => none
  | c :: rest =>
    match parseAtom c, parseRegExp rest with
    | some a, some ps => some (.one a :: ps)
    | _, _ => none

/-- Whether an atom matches a character. -/
def Atom.test : Atom → Char → Bool
  | .any, c => !isLineTerminator c
  | .chr x, c => c == x

/-- Match of `a*` followed by the continuation `k`, at the head of the input. -/
def matchStar (a : Atom) (k : List Char → Bool) : List Char → Bool
  | [] => k []
  | c :: cs => k (c :: cs) || (a.test c && matchStar a k cs)

/-- Whether the pieces match the input from its first character on. -/
def matchHere : List Piece → List Char → Bool
  | [], _ => true
  | .one _ :: _, [] => false
  | .one a :: ps, c :: cs => a.test c && matchHere ps cs
  | .star a :: ps, s => matchStar a (matchHere ps) s

/-- The method `regex.test(s)` of an unanchored expression without flags: a match may start
at any position. -/
def regexTest (re : List Piece) : List Char → Bool
  | [] => matchHere re []
  | c :: cs => matchHere re (c :: cs) || regexTest re cs

/-- The method `pattern.replace('*', '.*')`: only the first `*` is replaced. -/
def replaceStar : List Char → List Char
  | [] => []
  | c :: cs => if c = '*' then '.' :: '*' :: cs else c :: replaceStar cs

/-- The callback of `ignorePatterns.some(...)`: whether `pattern` excludes the entry
`name`.  Every wildcard pattern of `ignorePatterns` has a source that `parseRegExp` reads,
so the last branch is not reached. -/
def patternIgnores (name pattern : String) : Bool :=
  if pattern.toList.contains '*' then
    match parseRegExp (replaceStar pattern.toList) with
    | some regex => regexTest regex name.toList
    | none => false
  else name == pattern

/-- The constant `shouldIgnore` computed for an entry named `name`. -/
def shouldIgnore (name : String) : Bool :=
  ignorePatterns.any (fun pattern => patternIgnores name pattern)

/-- A directory entry as `readdir` with `withFileTypes` reports it: `dir` when
`entry.isDirectory()` holds (with the entries below it), `file` otherwise. -/
inductive Entry where
  | file (name : String)
  | dir (name : String) (entries : List Entry)

/-- The call `path.join(relativePath, name)` for an entry name (one path component, neither
`.` nor `..`): the empty `relativePath` of the top directory is dropped. -/
def pathJoin (relativePath name : String) : String :=
  if relativePath = "" then name else relativePath ++ "/" ++ name

mutual
/-- The loop of `walk` over the entries of a directory: the paths pushed on `files`, in
order. -/
def walk (relativePath : String) : List Entry → List String
  | [] => []
  | entry :: rest => walkEntry relativePath entry ++ walk relativePath rest
/-- The body of the loop of `walk` for one entry. -/
def walkEntry (relativePath : String) : Entry → List String
  | .file name => if shouldIgnore name then [] else [pathJoin relativePath name]
  | .dir name entries =>
    if shouldIgnore name then [] else walk (pathJoin relativePath name) entries
end

/-- The function `getPackageFiles(dir)` on the directory whose entries are `entries`. -/
def getPackageFiles (entries : List Entry) : List String :=
  walk "" entries

/-! ### Two views of an iteration, used in the proofs -/

/-- The version an iteration installs, if any: the resolved version, when the metadata is
found, the version resolves to a published record that has a `dist`, and the download and
the extraction succeed. -/
def installedVersion (sv : Semver) (spec : PackageSpec) (out : Outcome) : Option String :=
  match out.metadata with
  | .found metadata =>
    match resolveVersion sv metadata spec.version with
    | .version targetVersion =>
      if targetVersion = "" then none
      else
        match (metadata.versions.find? (fun e => e.1 == targetVersion)).map Prod.snd with
        | some versionData =>
          match versionData.dist with
          | some _ => if out.download && out.extract then some targetVersion else none
          | none => none
        | none => none
    | _ => none
  | _ => none

/-- The end of a successful iteration (install.js, lines 80-85): the record is pushed on
`installed`, then the manifest is updated when the options ask for it. -/
def recordInstalled (options : Options) (st : InstallState) (writeOk : Bool)
    (name targetVersion : String) : InstallState :=
  let st := { st with installed := st.installed ++ [(name, targetVersion)] }
  if flagSet options.saveDev || options.global == none then
    match updatePackageJson st writeOk name targetVersion (flagSet options.saveDev) with
    | .ok st' => st'
    | .error st' => st'.fail name
  else st

/-! ### Reading a manifest -/

/-- The dependency map that `updatePackageJson` writes to: `devDependencies` when `isDev`,
`dependencies` otherwise. -/
def Manifest.depsOf (isDev : Bool) (pkg : Manifest) : Option DepMap :=
  if isDev then pkg.devDependencies else pkg.dependencies

/-- The read `deps[name]` on a dependency map that may be missing. -/
def getDep (deps : Option DepMap) (name : String) : Option String :=
  deps.bind (fun d => DepMap.get d name)

/-- The version of the last record of `installed` under `name`, if there is one. -/
def lastInstalled (installed : List (String × String)) (name : String) : Option String :=
  (installed.reverse.find? (fun r => r.1 == name)).map Prod.snd

/-- The manifest after the caret pins of `records` are written in order. -/
def pinAll (isDev : Bool) (pkg : Manifest) (records : List (String × String)) : Manifest :=
  records.foldl (fun acc r => acc.pin isDev r.1 ("^" ++ r.2)) pkg

/-! ### Files of a directory tree -/

/-- The components of the path of a file of the tree: `IsFileAt entries [d₁, …, dₙ, f]`
when `f` is a file in the directory reached from `entries` through `d₁`, …, `dₙ`. -/
inductive IsFileAt : List Entry → List String → Prop where
  | atFile (entries : List Entry) (name : String) :
      Entry.file name ∈ entries → IsFileAt entries [name]
  | inDir (entries : List Entry) (name : String) (sub : List Entry) (comps : List String) :
      Entry.dir name sub ∈ entries → IsFileAt sub comps → IsFileAt entries (name :: comps)

/-- The relative path with the given components below the directory `relativePath`. -/
def relPath (relativePath : String) (comps : List String) : String :=
  comps.foldl pathJoin relativePath

/-- A project tree with a `.git` directory. -/
def exampleTree : List Entry :=
  [.dir ".git" [.file "config", .dir "objects" [.file "pack"]],
   .file "index.js",
   .file "debug.log",
   .dir "src" [.file "a.js", .dir "node_modules" [.file "x.js"]]]

/-! ## Concrete runs -/

/-- A manifest with one dependency. -/
def exampleManifest : Manifest where
  name := some "app"
  version := some "0.1.0"
  description := none
  main := none
  scripts := none
  dependencies := some [("lodash", "^4.0.0")]
  devDependencies := none
  other := []

/-- An environment in which every package has the example document and every step
succeeds. -/
def envAllOk : Nat → Outcome := fun _ =>
  { metadata := .found exampleMetadata, download := true, extract := true, manifestWrite := true }

/-- An environment in which every package has the example document and downloads and
extracts, but the write of `package.json` throws. -/
def envWriteFails : Nat → Outcome := fun _ =>
  { metadata := .found exampleMetadata, download := true, extract := true, manifestWrite := false }

/-- The run `install(["left-pad"], {})` when `package.json` cannot be written. -/
def runWriteFails : InstallState :=
  install Semver.plain true envWriteFails (some exampleManifest) ["left-pad"]
    { saveDev := none, global := none }

/-- The run `install(["a", "b@9.9.9", "c"], {})` with every step succeeding. -/
def runThreeSpecs : InstallState :=
  install Semver.plain true envAllOk (some exampleManifest) ["a", "b@9.9.9", "c"]
    { saveDev := none, global := none }

/-- The run `install(["p@1.0.0", "p@2.0.0"], {})` with every step succeeding. -/
def runSameNameTwice : InstallState :=
  install Semver.plain true envAllOk (some exampleManifest) ["p@1.0.0", "p@2.0.0"]
    { saveDev := none, global := none }

/-- The run `install(["left-pad"], { saveDev: true, global: true })` with every step
succeeding. -/
def runGlobalSaveDev : InstallState :=
  install Semver.plain true envAllOk (some exampleManifest) ["left-pad"]
    { saveDev := some true, global := some true }

/-! ## The registry client (utils/api.js) -/

/-- The configuration object returned by `getConfig()`, which never throws; `token = none`
is `null` or a missing field. -/
structure Config where
  registry : String
  token : Option String
  deriving DecidableEq, Repr

/-- The field `dist` of the version record of a publish document. -/
structure PublishDist where
  shasum : String
  integrity : String
  tarball : String
  deriving DecidableEq, Repr

/-- The version record of a publish document. -/
structure PublishedVersion where
  name : String
  version : String
  description : String
  main : String
  scripts : DepMap
  dependencies : DepMap
  devDependencies : DepMap
  id : String
  dist : PublishDist
  deriving DecidableEq, Repr

/-- An entry of `_attachments`. -/
structure Attachment where
  contentType : String
  data : String
  length : Nat
  deriving DecidableEq, Repr

/-- The object `publishBody` of `publish`; the three maps are lists of entries in key
order. -/
structure PublishBody where
  id : String
  name : String
  description : String
  readme : String
  access : String
  distTags : DepMap
  versions : List (String × PublishedVersion)
  attachments : List (String × Attachment)
  deriving DecidableEq, Repr

/-- The argument of `JSON.stringify` in a request body: a flat object with string values,
or a publish document. -/
inductive Payload where
  | object (fields : List (String × String))
  | document (doc : PublishBody)
  deriving DecidableEq, Repr

/-- The `options` argument of `apiRequest`; a field is `none` when it is not given. -/
structure RequestOptions where
  method : Option String
  body : Option Payload
  headers : Option DepMap
  deriving DecidableEq, Repr

/-- The arguments of a call of `fetch`: the URL and the fields of the init object. -/
structure Request where
  url : String
  method : Option String
  body : Option Payload
  headers : DepMap
  deriving DecidableEq, Repr

/-- An HTTP response; `json = none` when `response.json()` throws, and otherwise the parsed
body, a value of type `β`. -/
structure Response (β : Type) where
  status : Nat
  statusText : String
  json : Option β

/-- The property `response.ok`: a status in the range 200-299. -/
def Response.ok {β : Type} (response : Response β) : Bool :=
  decide (200 ≤ response.status) && decide (response.status ≤ 299)

/-- The call of `fetch` that `apiRequest(endpoint, options)` makes under the configuration
`config`. -/
def apiRequest (config : Config) (endpoint : String) (options : RequestOptions) : Request :=
  let url := config.registry ++ endpoint
  let headers := DepMap.spread [("Content-Type", "application/json")] (options.headers.getD [])
  let headers :=
    match config.token with
    | some token => if truthy (some token) then DepMap.set headers "Authorization" ("Bearer " ++ token)
      else headers
    | none => headers
  { url := url, method := options.method, body := options.body, headers := headers }

/-- The function `getPackageMetadata(packageName)`.  `fetch` is the network: it answers a
request with a response or throws (`none`); the parsed body of a response is a metadata
document or the JSON value `null` (`none`); `encodeURIComponent` is the built-in function.
The result is `.error message` when the function throws and `.ok none` when it returns
`null`. -/
def getPackageMetadata (encodeURIComponent : String → String) (config : Config)
    (fetch : Request → Option (Response (Option Metadata))) (packageName : String) :
    Except String (Option Metadata) :=
  match fetch (apiRequest config ("/" ++ encodeURIComponent packageName)
      { method := none, body := none, headers := none }) with
  | none => .error "fetch failed"
  | some response =>
    if !response.ok then
      if response.status = 404 then .ok none
      else .error ("Failed to fetch package: " ++ response.statusText)
    else
      match response.json with
      | some value => .ok value
      | none => .error "invalid json"

/-! ## The handlers of access.js, org.js and token.js -/

/-- The parsed body of a response to a handler, as far as the control flow reads it: the
field `error`. -/
structure ApiResult where
  error : Option String
  deriving DecidableEq, Repr

/-- How a handler ends: on the missing-token guard, on a cancelled prompt, on a failure
message, in its `catch` block, or after the success path. -/
inductive HandlerOutcome where
  | notLoggedIn
  | cancelled
  | failed (message : String)
  | threw
  | done
  deriving DecidableEq, Repr

/-- A run of a handler: the calls of `fetch` it made, in order, and how it ended.  The
rendering of a result on the console is not modelled. -/
structure HandlerResult where
  requests : List Request
  outcome : HandlerOutcome
  deriving DecidableEq, Repr

/-- The expression `result.error || 'Unknown error'`. -/
def errorMessage (result : ApiResult) : String :=
  match result.error with
  | some e => if truthy (some e) then e else "Unknown error"
  | none => "Unknown error"

/-- The statements after the request in the handlers that parse the body first:
`result = await response.json(); if (!response.ok) { fail; return }` and the success
message. -/
def parseThenCheck (response : Option (Response ApiResult)) : HandlerOutcome :=
  match response with
  | none => .threw
  | some r =>
    match r.json with
    | none => .threw
    | some result => if !r.ok then .failed ("Failed: " ++ errorMessage result) else .done

/-- The statements after the request in the handlers that test `response.ok` first and
parse the body in either branch. -/
def checkThenParse (response : Option (Response ApiResult)) : HandlerOutcome :=
  match response with
  | none => .threw
  | some r =>
    if !r.ok then
      match r.json with
      | none => .threw
      | some result => .failed ("Failed: " ++ errorMessage result)
    else
      match r.json with
      | none => .threw
      | some _ => .done

/-- The statements after the request in `revokeToken`, which parses the body only on a
failure. -/
def checkOnly (response : Option (Response ApiResult)) : HandlerOutcome :=
  match response with
  | none => .threw
  | some r =>
    if !r.ok then
      match r.json with
      | none => .threw
      | some result => .failed ("Failed: " ++ errorMessage result)
    else .done

/-- The function `setAccess(packageName, access)`. -/
def setAccess (encodeURIComponent : String → String) (config : Config)
    (fetch : Request → Option (Response ApiResult)) (packageName access : String) :
    HandlerResult :=
  if !truthy config.token then { requests := [], outcome := .notLoggedIn }
  else
    let request := apiRequest config ("/-/package/" ++ encodeURIComponent packageName ++ "/access")
      { method := some "POST", body := some (.object [("access", access)]), headers := none }
    { requests := [request], outcome := parseThenCheck (fetch request) }

/-- The function `accessPublic(packageName)`. -/
def accessPublic (encodeURIComponent : String → String) (config : Config)
    (fetch : Request → Option (Response ApiResult)) (packageName : String) : HandlerResult :=
  setAccess encodeURIComponent config fetch packageName "public"

/-- The function `accessRestricted(packageName)`. -/
def accessRestricted (encodeURIComponent : String → String) (config : Config)
    (fetch : Request → Option (Response ApiResult)) (packageName : String) : HandlerResult :=
  setAccess encodeURIComponent config fetch packageName "restricted"

/-- The function `grantAccess(packageName, username, options)`; `readWrite` is
`options.readWrite`. -/
def grantAccess (encodeURIComponent : String → String) (config : Config)
    (fetch : Request → Option (Response ApiResult)) (packageName username : String)
    (readWrite : Option Bool) : HandlerResult :=
  if !truthy config.token then { requests := [], outcome := .notLoggedIn }
  else
    let permissions := if flagSet readWrite then "read-write" else "read-only"
    let request := apiRequest config
      ("/-/package/" ++ encodeURIComponent packageName ++ "/collaborators/" ++ username)
      { method := some "PUT", body := some (.object [("permissions", permissions)]),
        headers := none }
    { requests := [request], outcome := parseThenCheck (fetch request) }

/-- The function `revokeAccess(packageName, username)`. -/
def revokeAccess (encodeURIComponent : String → String) (config : Config)
    (fetch : Request → Option (Response ApiResult)) (packageName username : String) :
    HandlerResult :=
  if !truthy config.token then { requests := [], outcome := .notLoggedIn }
  else
    let request := apiRequest config
      ("/-/package/" ++ encodeURIComponent packageName ++ "/collaborators/" ++ username)
      { method := some "DELETE", body := none, headers := none }
    { requests := [request], outcome := parseThenCheck (fetch request) }

/-- The function `listCollaborators(packageName)`. -/
def listCollaborators (encodeURIComponent : String → String) (config : Config)
    (fetch : Request → Option (Response ApiResult)) (packageName : String) : HandlerResult :=
  if !truthy config.token then { requests := [], outcome := .notLoggedIn }
  else
    let request := apiRequest config
      ("/-/package/" ++ encodeURIComponent packageName ++ "/collaborators")
      { method := none, body := none, headers := none }
    { requests := [request], outcome := checkThenParse (fetch request) }

/-- The function `createOrg(name, options)`; `displayName` is `options.displayName`. -/
def createOrg (config : Config) (fetch : Request → Option (Response ApiResult))
    (name : String) (displayName : Option String) : HandlerResult :=
  if !truthy config.token then { requests := [], outcome := .notLoggedIn }
  else
    let shown := match displayName with
      | some d => if truthy (some d) then d else name
      | none => name
    let request := apiRequest config "/-/org"
      { method := some "POST", body := some (.object [("name", name), ("displayName", shown)]),
        headers := none }
    { requests := [request], outcome := parseThenCheck (fetch request) }

/-- The function `listOrgs()`. -/
def listOrgs (config : Config) (fetch : Request → Option (Response ApiResult)) :
    HandlerResult :=
  if !truthy config.token then { requests := [], outcome := .notLoggedIn }
  else
    let request := apiRequest config "/-/org" { method := none, body := none, headers := none }
    { requests := [request], outcome := checkThenParse (fetch request) }

/-- The function `showOrg(name)`. -/
def showOrg (encodeURIComponent : String → String) (config : Config)
    (fetch : Request → Option (Response ApiResult)) (name : String) : HandlerResult :=
  if !truthy config.token then { requests := [], outcome := .notLoggedIn }
  else
    let request := apiRequest config ("/-/org/" ++ encodeURIComponent name)
      { method := none, body := none, headers := none }
    { requests := [request], outcome := checkThenParse (fetch request) }

/-- The function `deleteOrg(name)`. -/
def deleteOrg (encodeURIComponent : String → String) (config : Config)
    (fetch : Request → Option (Response ApiResult)) (name : String) : HandlerResult :=
  if !truthy config.token then { requests := [], outcome := .notLoggedIn }
  else
    let request := apiRequest config ("/-/org/" ++ encodeURIComponent name)
      { method := some "DELETE", body := none, headers := none }
    { requests := [request], outcome := parseThenCheck (fetch request) }

/-- The function `addMember(orgName, username, options)`; `role` is `options.role`. -/
def addMember (encodeURIComponent : String → String) (config : Config)
    (fetch : Request → Option (Response ApiResult)) (orgName username : String)
    (role : Option String) : HandlerResult :=
  let role := match role with
    | some r => if truthy (some r) then r else "member"
    | none => "member"
  if !truthy config.token then { requests := [], outcome := .notLoggedIn }
  else
    let request := apiRequest config
      ("/-/org/" ++ encodeURIComponent orgName ++ "/members/" ++ username)
      { method := some "PUT", body := some (.object [("role", role)]), headers := none }
    { requests := [request], outcome := parseThenCheck (fetch request) }

/-- The function `removeMember(orgName, username)`. -/
def removeMember (encodeURIComponent : String → String) (config : Config)
    (fetch : Request → Option (Response ApiResult)) (orgName username : String) :
    HandlerResult :=
  if !truthy config.token then { requests := [], outcome := .notLoggedIn }
  else
    let request := apiRequest config
      ("/-/org/" ++ encodeURIComponent orgName ++ "/members/" ++ username)
      { method := some "DELETE", body := none, headers := none }
    { requests := [request], outcome := parseThenCheck (fetch request) }

/-- The function `listOrgPackages(orgName)`. -/
def listOrgPackages (encodeURIComponent : String → String) (config : Config)
    (fetch : Request → Option (Response ApiResult)) (orgName : String) : HandlerResult :=
  if !truthy config.token then { requests := [], outcome := .notLoggedIn }
  else
    let request := apiRequest config ("/-/org/" ++ encodeURIComponent orgName ++ "/packages")
      { method := none, body := none, headers := none }
    { requests := [request], outcome := checkThenParse (fetch request) }

/-- The function `createToken(options)`; `promptName` is the field `name` of the answer of
`prompts`, `none` when the prompt is aborted. -/
def createToken (config : Config) (fetch : Request → Option (Response ApiResult))
    (promptName : Option String) : HandlerResult :=
  if !truthy config.token then { requests := [], outcome := .notLoggedIn }
  else
    match promptName with
    | none => { requests := [], outcome := .cancelled }
    | some name =>
      if !truthy (some name) then { requests := [], outcome := .cancelled }
      else
        let request := apiRequest config "/-/npm/v1/tokens"
          { method := some "POST", body := some (.object [("name", name)]), headers := none }
        { requests := [request], outcome := parseThenCheck (fetch request) }

/-- The function `listTokens()`. -/
def listTokens (config : Config) (fetch : Request → Option (Response ApiResult)) :
    HandlerResult :=
  if !truthy config.token then { requests := [], outcome := .notLoggedIn }
  else
    let request := apiRequest config "/-/npm/v1/tokens"
      { method := none, body := none, headers := none }
    { requests := [request], outcome := checkThenParse (fetch request) }

/-- The function `revokeToken(tokenId)`. -/
def revokeToken (config : Config) (fetch : Request → Option (Response ApiResult))
    (tokenId : String) : HandlerResult :=
  if !truthy config.token then { requests := [], outcome := .notLoggedIn }
  else
    let request := apiRequest config ("/-/npm/v1/tokens/" ++ tokenId)
      { method := some "DELETE", body := none, headers := none }
    { requests := [request], outcome := checkOnly (fetch request) }

/-! ## `publish` (publish.js, lines 10-136 and 178-190) -/

/-- The content of a buffer: its bytes, each below 256. -/
abbrev Bytes := List Nat

/-- The functions of the `crypto` module and of `Buffer` that `publish` calls, parameters of
the embedding: `sha1Hex b` is `createHash('sha1').update(b).digest('hex')`, `sha512Base64 b`
is `createHash('sha512').update(b).digest('base64')` and `base64 b` is
`b.toString('base64')`. -/
structure Crypto where
  sha1Hex : Bytes → String
  sha512Base64 : Bytes → String
  base64 : Bytes → String

/-- The expression `value || fallback` on a string that may be missing. -/
def orDefault (value : Option String) (fallback : String) : String :=
  match value with
  | some v => if truthy (some v) then v else fallback
  | none => fallback

/-- The method `name.replace('/', '-')`: only the first `/` is replaced. -/
def replaceSlash : List Char → List Char
  | [] => []
  | c :: cs => if c = '/' then '-' :: cs else c :: replaceSlash cs

/-- What the file system does during one call of `createTarball`: whether the enumeration
of the project files succeeds, whether the `mkdir` of the staging directory succeeds,
whether the copy of a given file succeeds, whether `tar.create` succeeds, the bytes that
`readFile` returns for the archive (`none` when it throws), and whether the final `fs.rm`
succeeds. -/
structure PackOutcome where
  enumerate : Bool
  mkdir : Bool
  copy : String → Bool
  archive : Bool
  read : Option Bytes
  rm : Bool

/-- A call of `createTarball`: the buffer returned (`none` when the call raises), whether
the staging directory `.privatenpm-temp` was created by the call, and whether it exists
when the call returns or raises. -/
structure PackResult where
  tarball : Option Bytes
  stagingCreated : Bool
  stagingExists : Bool
  deriving DecidableEq, Repr

/-- The function `createTarball(dir, pkg)` on the project directory with entries `tree`;
`stagingBefore` says whether `.privatenpm-temp` exists when the call starts.  The
enumeration precedes the `try` block; the `finally` block removes the staging directory
and, when the removal throws, the call raises with the directory as the `try` block left
it. -/
def createTarball (tree : List Entry) (out : PackOutcome) (stagingBefore : Bool) : PackResult :=
  if !out.enumerate then
    { tarball := none, stagingCreated := false, stagingExists := stagingBefore }
  else
    let files := getPackageFiles tree
    let attempt : Option Bytes × Bool :=
      if !out.mkdir then (none, false)
      else if !files.all out.copy then (none, true)
      else if !out.archive then (none, true)
      else (out.read, true)
    if out.rm then
      { tarball := attempt.1, stagingCreated := attempt.2, stagingExists := false }
    else
      { tarball := none, stagingCreated := attempt.2,
        stagingExists := attempt.2 || stagingBefore }

/-- The function `getReadme()`; `readFile name` is the content of the file `name` of the
current directory, `none` when reading it throws. -/
def getReadme (readFile : String → Option String) : String :=
  match ["README.md", "readme.md", "README", "readme"].findSome? readFile with
  | some content => content
  | none => ""

/-- The object `publishBody` built by `publish` for the manifest `pkg`, whose name and
version are `name` and `version`. -/
def publishBody (crypto : Crypto) (pkg : Manifest) (name version access readme : String)
    (tarballBuffer : Bytes) : PublishBody :=
  let tarballName := String.mk (replaceSlash name.toList) ++ "-" ++ version ++ ".tgz"
  let shasum := crypto.sha1Hex tarballBuffer
  let integrity := "sha512-" ++ crypto.sha512Base64 tarballBuffer
  { id := name
    name := name
    description := orDefault pkg.description ""
    readme := readme
    access := access
    distTags := [("latest", version)]
    versions :=
      [(version,
        { name := name
          version := version
          description := orDefault pkg.description ""
          main := orDefault pkg.main "index.js"
          scripts := pkg.scripts.getD []
          dependencies := pkg.dependencies.getD []
          devDependencies := pkg.devDependencies.getD []
          id := name ++ "@" ++ version
          dist := { shasum := shasum, integrity := integrity, tarball := "" } })]
    attachments :=
      [(tarballName,
        { contentType := "application/octet-stream"
          data := crypto.base64 tarballBuffer
          length := tarballBuffer.length })] }

/-- The environment of a command: the configuration, the local manifest, the project
directory and what the file system does while packing, the readable files of the current
directory, the network, and the answer to the prompt of `token create`. -/
structure Env where
  config : Config
  manifest : Option Manifest
  tree : List Entry
  pack : PackOutcome
  stagingBefore : Bool
  readFile : String → Option String
  fetch : Request → Option (Response ApiResult)
  promptName : Option String

/-- How `publish` ends: on one of its three guards, in its `catch` block, on a rejected
request, or with the package published (and the label shown). -/
inductive PublishOutcome where
  | notLoggedIn
  | noManifest
  | missingFields
  | threw
  | failed (message : String)
  | published (isPrivate : Bool)
  deriving DecidableEq, Repr

/-- Whether `publish` reported a failure. -/
def PublishOutcome.isFailure : PublishOutcome → Bool
  | .published _ => false
  | _ => true

/-- A run of `publish`: the calls of `fetch`, how it ended, whether the staging directory
was created, and whether it exists at the end. -/
structure PublishResult where
  requests : List Request
  outcome : PublishOutcome
  stagingCreated : Bool
  stagingExists : Bool
  deriving DecidableEq, Repr

/-- The function `publish(options)`; `access` is `options.access`. -/
def publish (crypto : Crypto) (encodeURIComponent : String → String) (env : Env)
    (access : Option String) : PublishResult :=
  if !truthy env.config.token then
    { requests := [], outcome := .notLoggedIn, stagingCreated := false,
      stagingExists := env.stagingBefore }
  else
    match readPackageJson (InstallState.init env.manifest) with
    | none =>
      { requests := [], outcome := .noManifest, stagingCreated := false,
        stagingExists := env.stagingBefore }
    | some pkg =>
      if !truthy pkg.name || !truthy pkg.version then
        { requests := [], outcome := .missingFields, stagingCreated := false,
          stagingExists := env.stagingBefore }
      else
        let name := pkg.name.getD ""
        let version := pkg.version.getD ""
        let access := orDefault access "public"
        let isPrivate := access == "restricted" || access == "private"
        let packed := createTarball env.tree env.pack env.stagingBefore
        match packed.tarball with
        | none =>
          { requests := [], outcome := .threw, stagingCreated := packed.stagingCreated,
            stagingExists := packed.stagingExists }
        | some tarballBuffer =>
          let body := publishBody crypto pkg name version access (getReadme env.readFile)
            tarballBuffer
          let request := apiRequest env.config ("/" ++ encodeURIComponent name)
            { method := some "PUT", body := some (.document body), headers := none }
          let outcome :=
            match env.fetch request with
            | none => .threw
            | some response =>
              match response.json with
              | none => .threw
              | some result =>
                if !response.ok then .failed ("Publish failed: " ++ errorMessage result)
                else .published isPrivate
          { requests := [request], outcome := outcome, stagingCreated := packed.stagingCreated,
            stagingExists := packed.stagingExists }

/-! ## The handlers that require a session -/

/-- A handler that requires a session, with its arguments. -/
inductive Command where
  | publish (access : Option String)
  | accessPublic (packageName : String)
  | accessRestricted (packageName : String)
  | grantAccess (packageName username : String) (readWrite : Option Bool)
  | revokeAccess (packageName username : String)
  | listCollaborators (packageName : String)
  | createOrg (name : String) (displayName : Option String)
  | listOrgs
  | showOrg (name : String)
  | deleteOrg (name : String)
  | addMember (orgName username : String) (role : Option String)
  | removeMember (orgName username : String)
  | listOrgPackages (orgName : String)
  | createToken
  | listTokens
  | revokeToken (tokenId : String)
  deriving DecidableEq, Repr

/-- The run of `publish` seen as a run of a handler. -/
def PublishResult.toHandler (r : PublishResult) : HandlerResult where
  requests := r.requests
  outcome :=
    match r.outcome with
    | .notLoggedIn => .notLoggedIn
    | .noManifest => .failed "No package.json found in current directory"
    | .missingFields => .failed "package.json must have name and version"
    | .threw => .threw
    | .failed message => .failed message
    | .published _ => .done

/-- The run of a handler in an environment. -/
def Command.run (crypto : Crypto) (encodeURIComponent : String → String) (env : Env) :
    Command → HandlerResult
  | .publish access => (PrivateNpm.publish crypto encodeURIComponent env access).toHandler
  | .accessPublic packageName =>
    PrivateNpm.accessPublic encodeURIComponent env.config env.fetch packageName
  | .accessRestricted packageName =>
    PrivateNpm.accessRestricted encodeURIComponent env.config env.fetch packageName
  | .grantAccess packageName username readWrite =>
    PrivateNpm.grantAccess encodeURIComponent env.config env.fetch packageName username readWrite
  | .revokeAccess packageName username =>
    PrivateNpm.revokeAccess encodeURIComponent env.config env.fetch packageName username
  | .listCollaborators packageName =>
    PrivateNpm.listCollaborators encodeURIComponent env.config env.fetch packageName
  | .createOrg name displayName => PrivateNpm.createOrg env.config env.fetch name displayName
  | .listOrgs => PrivateNpm.listOrgs env.config env.fetch
  | .showOrg name => PrivateNpm.showOrg encodeURIComponent env.config env.fetch name
  | .deleteOrg name => PrivateNpm.deleteOrg encodeURIComponent env.config env.fetch name
  | .addMember orgName username role =>
    PrivateNpm.addMember encodeURIComponent env.config env.fetch orgName username role
  | .removeMember orgName username =>
    PrivateNpm.removeMember encodeURIComponent env.config env.fetch orgName username
  | .listOrgPackages orgName =>
    PrivateNpm.listOrgPackages encodeURIComponent env.config env.fetch orgName
  | .createToken => PrivateNpm.createToken env.config env.fetch env.promptName
  | .listTokens => PrivateNpm.listTokens env.config env.fetch
  | .revokeToken tokenId => PrivateNpm.revokeToken env.config env.fetch tokenId

/-- Whether a handler returns before its request although a token is present: `publish`
without a manifest that has a name and a version, and `token create` when the prompt gives
no name. -/
def Command.returnsEarly (env : Env) : Command → Bool
  | .publish _ =>
    match env.manifest with
    | none => true
    | some pkg => !truthy pkg.name || !truthy pkg.version
  | .createToken => !truthy env.promptName
  | _ => false

/-! ## Concrete environments -/

/-- A configuration with a token. -/
def exampleConfig : Config where
  registry := "https://registry.example"
  token := some "secret"

/-- Stand-ins for the digests and the encoding, which tag the length of the buffer. -/
def exampleCrypto : Crypto where
  sha1Hex b := String.mk (List.replicate b.length 'a')
  sha512Base64 b := String.mk (List.replicate b.length 'b')
  base64 b := String.mk (List.replicate b.length 'c')

/-- A file system on which every step of the packing succeeds and the archive has three
bytes. -/
def packAllOk : PackOutcome where
  enumerate := true
  mkdir := true
  copy := fun _ => true
  archive := true
  read := some [31, 139, 8]
  rm := true

/-- A file system on which the enumeration of the project files throws. -/
def packEnumerateFails : PackOutcome where
  enumerate := false
  mkdir := true
  copy := fun _ => true
  archive := true
  read := some [31, 139, 8]
  rm := true

/-- An environment with a token, the example manifest and project tree, a network that
answers every request with `200` and an empty object, and a prompt answered `ci`. -/
def exampleEnv : Env where
  config := exampleConfig
  manifest := some exampleManifest
  tree := exampleTree
  pack := packAllOk
  stagingBefore := false
  readFile := fun _ => none
  fetch := fun _ => some { status := 200, statusText := "OK", json := some { error := none } }
  promptName := some "ci"

/-- The access value of the publish document of a run of `publish`, when it sent one. -/
def sentAccess (r : PublishResult) : Option String :=
  match r.requests with
  | [request] =>
    match request.body with
    | some (.document doc) => some doc.access
    | _ => none
  | _ => none

/-- A document whose `dist-tags.latest` names a version that is not published. -/
def staleTagMetadata : Metadata where
  distTagsLatest := some "3.0.0"
  versions :=
    [("1.0.0", { dist := some { tarball := "https://registry.example/p/-/p-1.0.0.tgz" } })]

/-- The example environment without a token. -/
def envNoToken : Env :=
  { exampleEnv with config := { exampleConfig with token := none } }

/-- The header a request carries under the name `k` when the caller-supplied headers are
laid over the default `Content-Type: application/json`. -/
def laidOver (callerHeaders : DepMap) (k : String) : Option String :=
  match DepMap.get callerHeaders k with
  | some v => some v
  | none => if k = "Content-Type" then some "application/json" else none

/-- The run `install(["p"], {})` when the registry serves the document with the stale tag
and every step succeeds. -/
def runStaleTag : InstallState :=
  install Semver.plain true
    (fun _ => { metadata := .found staleTagMetadata, download := true, extract := true,
                manifestWrite := true })
    (some exampleManifest) ["p"] { saveDev := none, global := none }

/-- The names `install` takes from a manifest when it is given no package spec: the keys of
`{ ...pkg.dependencies, ...pkg.devDependencies }`. -/
def manifestPackages (pkg : Manifest) : List String :=
  (DepMap.spread (pkg.dependencies.getD []) (pkg.devDependencies.getD [])).map Prod.fst

/-- A manifest with a dependency, a dev dependency and a scoped dependency. -/
def manifestWithRanges : Manifest :=
  { exampleManifest with
    dependencies := some [("lodash", "^4.0.0"), ("@scope/pkg", "1.0.0")]
    devDependencies := some [("mocha", "~9.1.0")] }

/-! ### Lemmas on `lastIndexOf` -/

theorem lastIndexOfAux_not_mem (c : Char) (l : List Char) (i acc : Int) (h : c ∉ l) :
    lastIndexOfAux c l i acc = acc := by
  induction l generalizing i acc with
  | nil => rfl
  | cons x xs ih =>
    have hx : x ≠ c := fun e => h (by simp [e])
    have hxs : c ∉ xs := fun e => h (by simp [e])
    simp [lastIndexOfAux, hx, ih _ _ hxs]

theorem lastIndexOfAux_split (c : Char) (pre post : List Char) (i acc : Int) (h : c ∉ post) :
    lastIndexOfAux c (pre ++ c :: post) i acc = i + pre.length := by
  induction pre generalizing i acc with
  | nil => simp [lastIndexOfAux, lastIndexOfAux_not_mem c post _ _ h]
  | cons x xs ih =>
    show lastIndexOfAux c (xs ++ c :: post) (i + 1) _ = _
    rw [ih, List.length_cons]
    push_cast
    ring

theorem lastIndexOf_of_last (s : String) (i : Nat) (hi : s.toList[i]? = some '@')
    (hlast : '@' ∉ s.toList.drop (i + 1)) : lastIndexOf s '@' = i := by
  have hlt : i < s.toList.length := by
    rcases Nat.lt_or_ge i s.toList.length with h | h
    · exact h
    · rw [List.getElem?_eq_none h] at hi; cases hi
  have hsplit : s.toList = s.toList.take i ++ '@' :: s.toList.drop (i + 1) := by
    have hget : s.toList[i] = '@' := by
      rw [List.getElem?_eq_getElem hlt] at hi
      exact Option.some.inj hi
    rw [← hget, List.getElem_cons_drop _ _ hlt, List.take_append_drop]
  unfold lastIndexOf
  rw [hsplit, lastIndexOfAux_split _ _ _ _ _ hlast, List.length_take,
    Nat.min_eq_left (Nat.le_of_lt hlt)]
  simp

theorem lastIndexOf_of_none_past_zero (s : String) (h : '@' ∉ s.toList.drop 1) :
    lastIndexOf s '@' ≤ 0 := by
  unfold lastIndexOf
  cases hs : s.toList with
  | nil => simp [lastIndexOfAux]
  | cons x xs =>
    rw [hs] at h
    simp only [List.drop_succ_cons, List.drop_zero] at h
    simp only [lastIndexOfAux]
    rw [lastIndexOfAux_not_mem _ _ _ _ h]
    split <;> simp

/-! ### Lemmas on `sort` and `resolveVersion` -/

theorem sortInsert_ne_nil (cmp : String → String → Int) (x : String) (l : List String) :
    sortInsert cmp x l ≠ [] := by
  cases l with
  | nil => simp [sortInsert]
  | cons y ys =>
    simp only [sortInsert]
    split <;> simp

theorem sort_eq_nil (cmp : String → String → Int) (l : List String) (h : sort cmp l = []) :
    l = [] := by
  cases l with
  | nil => rfl
  | cons x xs => exact absurd h (sortInsert_ne_nil cmp x _)

/-- The head of the sorted list is a member that the comparator puts before every member,
when the comparator is total and transitive on the members. -/
theorem sort_head (cmp : String → String → Int) (l : List String) (v : String)
    (htotal : ∀ a ∈ l, ∀ b ∈ l, cmp a b ≤ 0 ∨ cmp b a ≤ 0)
    (htrans : ∀ a ∈ l, ∀ b ∈ l, ∀ c ∈ l, cmp a b ≤ 0 → cmp b c ≤ 0 → cmp a c ≤ 0)
    (h : (sort cmp l).head? = some v) : v ∈ l ∧ ∀ w ∈ l, cmp v w ≤ 0 := by
  induction l generalizing v with
  | nil => simp [sort] at h
  | cons x xs ih =>
    have hxx : cmp x x ≤ 0 := by
      rcases htotal x (List.mem_cons_self _ _) x (List.mem_cons_self _ _) with h1 | h1 <;> exact h1
    have htotal' : ∀ a ∈ xs, ∀ b ∈ xs, cmp a b ≤ 0 ∨ cmp b a ≤ 0 := fun a ha b hb =>
      htotal a (List.mem_cons_of_mem _ ha) b (List.mem_cons_of_mem _ hb)
    have htrans' : ∀ a ∈ xs, ∀ b ∈ xs, ∀ c ∈ xs, cmp a b ≤ 0 → cmp b c ≤ 0 → cmp a c ≤ 0 :=
      fun a ha b hb c hc => htrans a (List.mem_cons_of_mem _ ha) b (List.mem_cons_of_mem _ hb)
        c (List.mem_cons_of_mem _ hc)
    simp only [sort] at h
    cases hs : sort cmp xs with
    | nil =>
      have hxs : xs = [] := sort_eq_nil cmp xs hs
      rw [hs] at h
      simp only [sortInsert, List.head?_cons, Option.some.injEq] at h
      subst h
      subst hxs
      refine ⟨List.mem_cons_self _ _, ?_⟩
      intro w hw
      rw [List.mem_singleton] at hw
      rw [hw]
      exact hxx
    | cons y ys =>
      have hy := ih y htotal' htrans' (by rw [hs]; rfl)
      rw [hs] at h
      simp only [sortInsert] at h
      by_cases hc : cmp x y ≤ 0
      · rw [if_pos hc] at h
        simp only [List.head?_cons, Option.some.injEq] at h
        subst h
        refine ⟨List.mem_cons_self _ _, ?_⟩
        intro w hw
        rcases List.mem_cons.mp hw with hw | hw
        · rw [hw]; exact hxx
        · exact htrans x (List.mem_cons_self _ _) y (List.mem_cons_of_mem _ hy.1) w
            (List.mem_cons_of_mem _ hw) hc (hy.2 w hw)
      · rw [if_neg hc] at h
        simp only [List.head?_cons, Option.some.injEq] at h
        subst h
        refine ⟨List.mem_cons_of_mem _ hy.1, ?_⟩
        intro w hw
        rcases List.mem_cons.mp hw with hw | hw
        · rw [hw]
          rcases htotal x (List.mem_cons_self _ _) y (List.mem_cons_of_mem _ hy.1) with h1 | h1
          · exact absurd h1 hc
          · exact h1
        · exact hy.2 w hw

theorem sort_head_isSome (cmp : String → String → Int) (l : List String) (h : l ≠ []) :
    ∃ v, (sort cmp l).head? = some v := by
  cases hs : sort cmp l with
  | nil => exact absurd (sort_eq_nil cmp l hs) h
  | cons y ys => exact ⟨y, rfl⟩

theorem contains_eq_true_iff (l : List String) (a : String) :
    l.contains a = true ↔ a ∈ l := by
  simp

/-- The branch of `resolveVersion` taken for a truthy token other than `latest`. -/
theorem resolveVersion_requested (sv : Semver) (metadata : Metadata) (requested : String)
    (hne : requested ≠ "") (hnl : requested ≠ "latest") :
    resolveVersion sv metadata (some requested) =
      if (metadata.versions.map Prod.fst).contains requested then .version requested
      else if ((metadata.versions.map Prod.fst).filter
          (fun v => sv.satisfies v requested)).length > 0 then
        match (sort sv.rcompare ((metadata.versions.map Prod.fst).filter
            (fun v => sv.satisfies v requested))).head? with
        | some v => .version v
        | none => .undefined
      else .null := by
  simp [resolveVersion, truthy, hne, hnl]

/-! ## Claims -/

/-- C1: `parsePackageSpec` splits on the last `@` that is not at position 0.  If the last
`@` of `spec` is at index `i > 0` (position `i` holds `@` and no `@` follows it) the result
is `name = spec[0..i)`, `version = spec[i+1..]`; if no `@` occurs past position 0 the
result is `name = spec`, `version = null`. -/
theorem parsePackageSpec_splits_on_last_at (spec : String) :
    (∀ i : Nat, 0 < i → spec.toList[i]? = some '@' → '@' ∉ spec.toList.drop (i + 1) →
        parsePackageSpec spec =
          { name := String.mk (spec.toList.take i)
            version := some (String.mk (spec.toList.drop (i + 1))) }) ∧
    ('@' ∉ spec.toList.drop 1 → parsePackageSpec spec = { name := spec, version := none }) := by
  constructor
  · intro i hpos hi hlast
    have h := lastIndexOf_of_last spec i hi hlast
    simp only [parsePackageSpec, h, substring, substringFrom]
    have : (0 : Int) < (i : Int) := by exact_mod_cast hpos
    simp [this]
  · intro h
    have h0 := lastIndexOf_of_none_past_zero spec h
    simp only [parsePackageSpec]
    rw [if_neg (by omega)]

/-- C1 at the three specs of the specification: `left-pad`, `left-pad@1.2.0` and
`@scope/pkg@1.0.0`. -/
theorem parsePackageSpec_splits_on_last_at_witness :
    parsePackageSpec "left-pad" = { name := "left-pad", version := none } ∧
    parsePackageSpec "left-pad@1.2.0" = { name := "left-pad", version := some "1.2.0" } ∧
    parsePackageSpec "@scope/pkg@1.0.0" = { name := "@scope/pkg", version := some "1.0.0" } :=
  ⟨(parsePackageSpec_splits_on_last_at "left-pad").2 (by decide),
   (parsePackageSpec_splits_on_last_at "left-pad@1.2.0").1 8 (by decide) (by decide) (by decide),
   (parsePackageSpec_splits_on_last_at "@scope/pkg@1.0.0").1 10 (by decide) (by decide)
     (by decide)⟩

/-- C2: when no version is requested (`null`, `undefined` or the empty string) or the
requested version is `latest`, `resolveVersion` returns `dist-tags.latest` if it is present
(a non-empty string), and otherwise the last key of the versions mapping in its stored
order (`undefined` when the mapping is empty). -/
theorem resolveVersion_latest (sv : Semver) (metadata : Metadata)
    (requestedVersion : Option String)
    (hreq : truthy requestedVersion = false ∨ requestedVersion = some "latest") :
    (∀ latest, metadata.distTagsLatest = some latest → truthy (some latest) = true →
        resolveVersion sv metadata requestedVersion = .version latest) ∧
    (truthy metadata.distTagsLatest = false →
        (∀ ks k, metadata.versions.map Prod.fst = ks ++ [k] →
          resolveVersion sv metadata requestedVersion = .version k) ∧
        (metadata.versions = [] →
          resolveVersion sv metadata requestedVersion = .undefined)) := by
  have hcond : (!truthy requestedVersion || requestedVersion == some "latest") = true := by
    rcases hreq with h | h
    · simp [h]
    · simp [h]
  refine ⟨?_, ?_⟩
  · intro latest hl ht
    simp only [resolveVersion, hcond, if_true, hl, ht]
  · intro habs
    have hres : resolveVersion sv metadata requestedVersion =
        lastKey (metadata.versions.map Prod.fst) := by
      simp only [resolveVersion, hcond, if_true]
      cases hl : metadata.distTagsLatest with
      | none => rfl
      | some latest =>
        rw [hl] at habs
        simp [habs]
    refine ⟨?_, ?_⟩
    · intro ks k hk
      rw [hres, hk]
      simp [lastKey]
    · intro hk
      rw [hres, hk]
      rfl

/-- C2 on the example document (versions `1.0.0`, `1.2.0`, `2.0.0`, `dist-tags.latest` =
`1.2.0`): an absent version and `latest` both resolve to `1.2.0`. -/
theorem resolveVersion_latest_witness :
    resolveVersion Semver.plain exampleMetadata none = .version "1.2.0" ∧
    resolveVersion Semver.plain exampleMetadata (some "latest") = .version "1.2.0" :=
  ⟨(resolveVersion_latest Semver.plain exampleMetadata none (Or.inl rfl)).1 "1.2.0" rfl
      (by decide),
   (resolveVersion_latest Semver.plain exampleMetadata (some "latest") (Or.inr rfl)).1 "1.2.0"
      rfl (by decide)⟩

/-- C3: a requested token that is present (non-empty), is not `latest` and equals one of
the published version strings is returned verbatim, for every `semver` behaviour. -/
theorem resolveVersion_exact (sv : Semver) (metadata : Metadata) (requested : String)
    (hne : requested ≠ "") (hnl : requested ≠ "latest")
    (hmem : requested ∈ metadata.versions.map Prod.fst) :
    resolveVersion sv metadata (some requested) = .version requested := by
  rw [resolveVersion_requested sv metadata requested hne hnl]
  have : (metadata.versions.map Prod.fst).contains requested = true := by
    rw [contains_eq_true_iff]
    exact hmem
  rw [if_pos this]

/-- C3 on the example document: `2.0.0` resolves to `2.0.0`. -/
theorem resolveVersion_exact_witness :
    resolveVersion Semver.plain exampleMetadata (some "2.0.0") = .version "2.0.0" :=
  resolveVersion_exact Semver.plain exampleMetadata "2.0.0" (by decide) (by decide) (by decide)

/-- C4: for a requested token that is present (non-empty), not `latest` and not a
published version string, if some published version satisfies the token as a range then
`resolveVersion` returns a published version `v` that satisfies it and is greater than or
equal to every published version `w` satisfying it (`rcompare v w ≤ 0`).  The
semantic-version order is assumed total and transitive on the satisfying versions. -/
theorem resolveVersion_range_max (sv : Semver) (metadata : Metadata) (requested : String)
    (hne : requested ≠ "") (hnl : requested ≠ "latest")
    (hnot : requested ∉ metadata.versions.map Prod.fst)
    (htotal : ∀ a ∈ (metadata.versions.map Prod.fst).filter (fun v => sv.satisfies v requested),
      ∀ b ∈ (metadata.versions.map Prod.fst).filter (fun v => sv.satisfies v requested),
        sv.rcompare a b ≤ 0 ∨ sv.rcompare b a ≤ 0)
    (htrans : ∀ a ∈ (metadata.versions.map Prod.fst).filter (fun v => sv.satisfies v requested),
      ∀ b ∈ (metadata.versions.map Prod.fst).filter (fun v => sv.satisfies v requested),
      ∀ c ∈ (metadata.versions.map Prod.fst).filter (fun v => sv.satisfies v requested),
        sv.rcompare a b ≤ 0 → sv.rcompare b c ≤ 0 → sv.rcompare a c ≤ 0)
    (hex : ∃ v ∈ metadata.versions.map Prod.fst, sv.satisfies v requested = true) :
    ∃ v, resolveVersion sv metadata (some requested) = .version v ∧
      v ∈ metadata.versions.map Prod.fst ∧ sv.satisfies v requested = true ∧
      ∀ w ∈ metadata.versions.map Prod.fst, sv.satisfies w requested = true →
        sv.rcompare v w ≤ 0 := by
  rw [resolveVersion_requested sv metadata requested hne hnl]
  have hc : ¬ (metadata.versions.map Prod.fst).contains requested = true := by
    rw [contains_eq_true_iff]
    exact hnot
  rw [if_neg hc]
  obtain ⟨v0, hv0, hs0⟩ := hex
  have hmem0 : v0 ∈ (metadata.versions.map Prod.fst).filter
      (fun v => sv.satisfies v requested) := List.mem_filter.mpr ⟨hv0, hs0⟩
  have hnil : (metadata.versions.map Prod.fst).filter
      (fun v => sv.satisfies v requested) ≠ [] := List.ne_nil_of_mem hmem0
  rw [if_pos (List.length_pos.mpr hnil)]
  obtain ⟨v, hv⟩ := sort_head_isSome sv.rcompare _ hnil
  have hhead := sort_head sv.rcompare _ v htotal htrans hv
  refine ⟨v, ?_, (List.mem_filter.mp hhead.1).1, (List.mem_filter.mp hhead.1).2, ?_⟩
  · rw [hv]
  · intro w hw hsw
    exact hhead.2 w (List.mem_filter.mpr ⟨hw, hsw⟩)

/-- C4 on the example document: `^1.0.0` resolves to `1.2.0`, the greatest of the two
versions in the range. -/
theorem resolveVersion_range_max_witness :
    (∃ v, resolveVersion Semver.plain exampleMetadata (some "^1.0.0") = .version v ∧
      v ∈ exampleMetadata.versions.map Prod.fst ∧ Semver.plain.satisfies v "^1.0.0" = true ∧
      ∀ w ∈ exampleMetadata.versions.map Prod.fst, Semver.plain.satisfies w "^1.0.0" = true →
        Semver.plain.rcompare v w ≤ 0) ∧
    resolveVersion Semver.plain exampleMetadata (some "^1.0.0") = .version "1.2.0" :=
  ⟨resolveVersion_range_max Semver.plain exampleMetadata "^1.0.0" (by decide) (by decide)
      (by decide) (by decide) (by decide) ⟨"1.0.0", by decide, by decide⟩,
   by decide⟩

/-- C5: for a requested token that is present (non-empty) and not `latest`,
`resolveVersion` returns `null` if and only if the token is not a published version string
and no published version satisfies it as a range. -/
theorem resolveVersion_null_iff (sv : Semver) (metadata : Metadata) (requested : String)
    (hne : requested ≠ "") (hnl : requested ≠ "latest") :
    resolveVersion sv metadata (some requested) = .null ↔
      (requested ∉ metadata.versions.map Prod.fst ∧
        ∀ v ∈ metadata.versions.map Prod.fst, sv.satisfies v requested = false) := by
  rw [resolveVersion_requested sv metadata requested hne hnl]
  constructor
  · intro h
    by_cases hc : (metadata.versions.map Prod.fst).contains requested = true
    · rw [if_pos hc] at h
      cases h
    · rw [if_neg hc] at h
      by_cases hl : ((metadata.versions.map Prod.fst).filter
          (fun v => sv.satisfies v requested)).length > 0
      · rw [if_pos hl] at h
        obtain ⟨v, hv⟩ := sort_head_isSome sv.rcompare _ (List.length_pos.mp hl)
        rw [hv] at h
        cases h
      · refine ⟨fun hm => hc ((contains_eq_true_iff _ _).mpr hm), ?_⟩
        intro v hv
        by_contra hs
        have hs' : sv.satisfies v requested = true := by simpa using hs
        exact hl (List.length_pos.mpr (List.ne_nil_of_mem (List.mem_filter.mpr ⟨hv, hs'⟩)))
  · rintro ⟨hnot, hall⟩
    have hc : ¬ (metadata.versions.map Prod.fst).contains requested = true := by
      rw [contains_eq_true_iff]
      exact hnot
    rw [if_neg hc]
    have hfil : (metadata.versions.map Prod.fst).filter
        (fun v => sv.satisfies v requested) = [] := by
      rw [List.filter_eq_nil_iff]
      intro v hv
      rw [hall v hv]
      simp
    rw [hfil]
    rfl

/-- C5 on the example document: `9.9.9` is unresolvable. -/
theorem resolveVersion_null_iff_witness :
    resolveVersion Semver.plain exampleMetadata (some "9.9.9") = .null :=
  (resolveVersion_null_iff Semver.plain exampleMetadata "9.9.9" (by decide) (by decide)).mpr
    (by decide)

/-! ### Lemmas on the install loop -/

/-- An iteration either fails the package or records it as installed. -/
theorem installStep_eq (sv : Semver) (options : Options) (st : InstallState)
    (pkgSpec : String) (out : Outcome) :
    installStep sv options st pkgSpec out =
      match installedVersion sv (parsePackageSpec pkgSpec) out with
      | none =>
        InstallState.fail { st with processed := st.processed ++ [parsePackageSpec pkgSpec] }
          (parsePackageSpec pkgSpec).name
      | some targetVersion =>
        recordInstalled options { st with processed := st.processed ++ [parsePackageSpec pkgSpec] }
          out.manifestWrite (parsePackageSpec pkgSpec).name targetVersion := by
  unfold installStep installedVersion recordInstalled
  cases out.metadata with
  | threw => rfl
  | notFound => rfl
  | found metadata =>
    simp only []
    cases resolveVersion sv metadata (parsePackageSpec pkgSpec).version with
    | undefined => rfl
    | null => rfl
    | version targetVersion =>
      simp only []
      by_cases htv : targetVersion = ""
      · simp only [htv, if_true]
      · simp only [htv, if_false]
        cases (metadata.versions.find? (fun e => e.1 == targetVersion)).map Prod.snd with
        | none => rfl
        | some versionData =>
          simp only []
          cases versionData.dist with
          | none => rfl
          | some d =>
            simp only []
            cases out.download <;> cases out.extract <;> simp

theorem DepMap.get_set (d : DepMap) (k v k' : String) :
    DepMap.get (DepMap.set d k v) k' = if k = k' then some v else DepMap.get d k' := by
  induction d with
  | nil =>
    by_cases h : k = k' <;> simp [DepMap.set, DepMap.get, h]
  | cons e rest ih =>
    obtain ⟨ke, ve⟩ := e
    simp only [DepMap.get] at ih
    by_cases h1 : ke = k
    · subst h1
      by_cases h2 : ke = k' <;> simp [DepMap.set, DepMap.get, List.find?_cons, h2]
    · by_cases h2 : k = k'
      · subst h2
        simp [DepMap.set, DepMap.get, List.find?_cons, h1, ih]
      · by_cases h3 : ke = k'
        · subst h3
          simp [DepMap.set, DepMap.get, List.find?_cons, h1, h2]
        · simp [DepMap.set, DepMap.get, List.find?_cons, h1, h2, h3, ih]

theorem getDep_pin_same (isDev : Bool) (pkg : Manifest) (name value name' : String) :
    getDep ((pkg.pin isDev name value).depsOf isDev) name' =
      if name = name' then some value else getDep (pkg.depsOf isDev) name' := by
  cases isDev
  · simp only [Manifest.pin, Manifest.depsOf, getDep, Bool.false_eq_true, if_false,
      Option.some_bind, DepMap.get_set]
    cases pkg.dependencies <;> simp [DepMap.get]
  · simp only [Manifest.pin, Manifest.depsOf, getDep, if_true, Option.some_bind, DepMap.get_set]
    cases pkg.devDependencies <;> simp [DepMap.get]

theorem pin_frame (isDev : Bool) (pkg : Manifest) (name value : String) :
    (pkg.pin isDev name value).depsOf (!isDev) = pkg.depsOf (!isDev) ∧
    (pkg.pin isDev name value).name = pkg.name ∧
    (pkg.pin isDev name value).version = pkg.version ∧
    (pkg.pin isDev name value).description = pkg.description ∧
    (pkg.pin isDev name value).main = pkg.main ∧
    (pkg.pin isDev name value).scripts = pkg.scripts ∧
    (pkg.pin isDev name value).other = pkg.other := by
  cases isDev <;> simp [Manifest.pin, Manifest.depsOf]

theorem lastInstalled_cons (r : String × String) (rs : List (String × String)) (name : String) :
    lastInstalled (r :: rs) name =
      match lastInstalled rs name with
      | some v => some v
      | none => if r.1 = name then some r.2 else none := by
  simp only [lastInstalled, List.reverse_cons, List.find?_append]
  cases h : List.find? (fun r => r.1 == name) rs.reverse with
  | some x => simp
  | none =>
    by_cases h1 : r.1 = name <;> simp [List.find?_cons, h1]

theorem pinAll_frame (isDev : Bool) (records : List (String × String)) (pkg : Manifest) :
    (pinAll isDev pkg records).depsOf (!isDev) = pkg.depsOf (!isDev) ∧
    (pinAll isDev pkg records).name = pkg.name ∧
    (pinAll isDev pkg records).version = pkg.version ∧
    (pinAll isDev pkg records).description = pkg.description ∧
    (pinAll isDev pkg records).main = pkg.main ∧
    (pinAll isDev pkg records).scripts = pkg.scripts ∧
    (pinAll isDev pkg records).other = pkg.other := by
  induction records generalizing pkg with
  | nil => simp [pinAll]
  | cons r rs ih =>
    have h1 := ih (pkg.pin isDev r.1 ("^" ++ r.2))
    have h2 := pin_frame isDev pkg r.1 ("^" ++ r.2)
    simp only [pinAll, List.foldl_cons] at h1 ⊢
    refine ⟨h1.1.trans h2.1, h1.2.1.trans h2.2.1, h1.2.2.1.trans h2.2.2.1,
      h1.2.2.2.1.trans h2.2.2.2.1, h1.2.2.2.2.1.trans h2.2.2.2.2.1,
      h1.2.2.2.2.2.1.trans h2.2.2.2.2.2.1, h1.2.2.2.2.2.2.trans h2.2.2.2.2.2.2⟩

theorem getDep_pinAll (isDev : Bool) (records : List (String × String)) (pkg : Manifest)
    (name : String) :
    getDep ((pinAll isDev pkg records).depsOf isDev) name =
      match lastInstalled records name with
      | some v => some ("^" ++ v)
      | none => getDep (pkg.depsOf isDev) name := by
  induction records generalizing pkg with
  | nil => simp [pinAll, lastInstalled]
  | cons r rs ih =>
    have h1 := ih (pkg.pin isDev r.1 ("^" ++ r.2))
    simp only [pinAll, List.foldl_cons] at h1 ⊢
    rw [h1, lastInstalled_cons]
    cases lastInstalled rs name with
    | some v => rfl
    | none =>
      simp only [getDep_pin_same]
      by_cases h : r.1 = name <;> simp [h]

theorem recordInstalled_update (options : Options) (st : InstallState) (pkg : Manifest)
    (name targetVersion : String) (hglobal : options.global = none)
    (hm : st.manifest = some pkg) :
    recordInstalled options st true name targetVersion =
      { st with
        manifest := some (pkg.pin (flagSet options.saveDev) name ("^" ++ targetVersion))
        installed := st.installed ++ [(name, targetVersion)]
        updateCalls := st.updateCalls ++ [(name, targetVersion, flagSet options.saveDev)]
        manifestWrites := st.manifestWrites ++
          [pkg.pin (flagSet options.saveDev) name ("^" ++ targetVersion)] } := by
  simp [recordInstalled, hglobal, updatePackageJson, readPackageJson, writePackageJson, hm]

theorem recordInstalled_skip (options : Options) (st : InstallState) (writeOk : Bool)
    (name targetVersion : String) (hglobal : options.global ≠ none)
    (hsave : flagSet options.saveDev = false) :
    recordInstalled options st writeOk name targetVersion =
      { st with installed := st.installed ++ [(name, targetVersion)] } := by
  simp [recordInstalled, hglobal, hsave]

theorem recordInstalled_counts (options : Options) (st : InstallState)
    (name targetVersion : String) :
    (recordInstalled options st true name targetVersion).installed.length +
        (recordInstalled options st true name targetVersion).failed.length =
      st.installed.length + st.failed.length + 1 := by
  unfold recordInstalled updatePackageJson readPackageJson writePackageJson
  by_cases hc : (flagSet options.saveDev || options.global == none) = true
  · cases hm : st.manifest with
    | none => simp [hc, hm]; omega
    | some pkg => simp [hc, hm]; omega
  · simp [hc]; omega

theorem recordInstalled_processed (options : Options) (st : InstallState) (writeOk : Bool)
    (name targetVersion : String) :
    (recordInstalled options st writeOk name targetVersion).processed = st.processed := by
  unfold recordInstalled updatePackageJson readPackageJson writePackageJson
  by_cases hc : (flagSet options.saveDev || options.global == none) = true
  · cases hm : st.manifest <;> cases writeOk <;> simp [hc, hm, InstallState.fail]
  · simp [hc]

/-- With every manifest write succeeding, an iteration adds exactly one entry to the two
result lists together. -/
theorem installStep_counts (sv : Semver) (options : Options) (st : InstallState)
    (pkgSpec : String) (out : Outcome) (hw : out.manifestWrite = true) :
    (installStep sv options st pkgSpec out).installed.length +
        (installStep sv options st pkgSpec out).failed.length =
      st.installed.length + st.failed.length + 1 := by
  rw [installStep_eq]
  cases installedVersion sv (parsePackageSpec pkgSpec) out with
  | none => simp [InstallState.fail]; omega
  | some targetVersion =>
    simp only [hw]
    rw [recordInstalled_counts]

/-- With every manifest write succeeding, the loop records each spec in exactly one of the
two result lists, and it processes the specs in input order whatever the outcomes. -/
theorem installLoop_counts (sv : Semver) (options : Options) (env : Nat → Outcome)
    (packages : List String) (k : Nat) (st : InstallState) :
    (installLoop sv options env k st packages).processed =
        st.processed ++ packages.map parsePackageSpec ∧
    ((∀ i, (env i).manifestWrite = true) →
      (installLoop sv options env k st packages).installed.length +
          (installLoop sv options env k st packages).failed.length =
        st.installed.length + st.failed.length + packages.length) := by
  induction packages generalizing k st with
  | nil => simp [installLoop]
  | cons pkgSpec rest ih =>
    have h := ih (k + 1) (installStep sv options st pkgSpec (env k))
    simp only [installLoop]
    refine ⟨?_, ?_⟩
    · rw [h.1, installStep_eq]
      cases installedVersion sv (parsePackageSpec pkgSpec) (env k) with
      | none => simp [InstallState.fail]
      | some targetVersion => simp [recordInstalled_processed]
    · intro hw
      rw [h.2 hw, installStep_counts sv options st pkgSpec (env k) (hw k), List.length_cons]
      omega

theorem installLoop_pins (sv : Semver) (options : Options) (env : Nat → Outcome)
    (hglobal : options.global = none) (hw : ∀ i, (env i).manifestWrite = true)
    (packages : List String) (k : Nat) (st : InstallState) (pkg : Manifest)
    (hm : st.manifest = some pkg) :
    ∃ records : List (String × String),
      (installLoop sv options env k st packages).installed = st.installed ++ records ∧
      (installLoop sv options env k st packages).manifest =
        some (pinAll (flagSet options.saveDev) pkg records) ∧
      (installLoop sv options env k st packages).updateCalls =
        st.updateCalls ++ records.map (fun r => (r.1, r.2, flagSet options.saveDev)) ∧
      (installLoop sv options env k st packages).manifestWrites.length =
        st.manifestWrites.length + records.length := by
  induction packages generalizing k st pkg with
  | nil => exact ⟨[], by simp [installLoop, pinAll, hm]⟩
  | cons pkgSpec rest ih =>
    simp only [installLoop]
    rw [installStep_eq]
    cases installedVersion sv (parsePackageSpec pkgSpec) (env k) with
    | none =>
      obtain ⟨records, h1, h2, h3, h4⟩ := ih (k + 1)
        (InstallState.fail { st with processed := st.processed ++ [parsePackageSpec pkgSpec] }
          (parsePackageSpec pkgSpec).name) pkg (by simp [InstallState.fail, hm])
      exact ⟨records, by simpa [InstallState.fail] using h1, h2,
        by simpa [InstallState.fail] using h3, by simpa [InstallState.fail] using h4⟩
    | some targetVersion =>
      simp only [hw k]
      have e := recordInstalled_update options
        { st with processed := st.processed ++ [parsePackageSpec pkgSpec] } pkg
        (parsePackageSpec pkgSpec).name targetVersion hglobal (by simp [hm])
      obtain ⟨records, h1, h2, h3, h4⟩ := ih (k + 1)
        (recordInstalled options
          { st with processed := st.processed ++ [parsePackageSpec pkgSpec] } true
          (parsePackageSpec pkgSpec).name targetVersion)
        (pkg.pin (flagSet options.saveDev) (parsePackageSpec pkgSpec).name
          ("^" ++ targetVersion)) (by rw [e])
      refine ⟨((parsePackageSpec pkgSpec).name, targetVersion) :: records, ?_, ?_, ?_, ?_⟩
      · rw [h1, e]; simp
      · rw [h2]; simp [pinAll]
      · rw [h3, e]; simp
      · rw [h4, e]; simp; omega

theorem installLoop_skip (sv : Semver) (options : Options) (env : Nat → Outcome)
    (hglobal : options.global ≠ none) (hsave : flagSet options.saveDev = false)
    (packages : List String) (k : Nat) (st : InstallState) :
    (installLoop sv options env k st packages).manifest = st.manifest ∧
    (installLoop sv options env k st packages).updateCalls = st.updateCalls ∧
    (installLoop sv options env k st packages).manifestWrites = st.manifestWrites := by
  induction packages generalizing k st with
  | nil => simp [installLoop]
  | cons pkgSpec rest ih =>
    simp only [installLoop]
    rw [installStep_eq]
    cases installedVersion sv (parsePackageSpec pkgSpec) (env k) with
    | none =>
      have h := ih (k + 1)
        (InstallState.fail { st with processed := st.processed ++ [parsePackageSpec pkgSpec] }
          (parsePackageSpec pkgSpec).name)
      simpa [InstallState.fail] using h
    | some targetVersion =>
      simp only []
      rw [recordInstalled_skip options _ _ _ _ hglobal hsave]
      have h := ih (k + 1)
        { st with
          processed := st.processed ++ [parsePackageSpec pkgSpec]
          installed := st.installed ++ [((parsePackageSpec pkgSpec).name, targetVersion)] }
      simpa using h

/-! ### Lemmas on `walk` -/

theorem isFileAt_nil (comps : List String) : ¬ IsFileAt [] comps := by
  intro h
  cases h with
  | atFile _ _ hm => simp at hm
  | inDir _ _ _ _ hm _ => simp at hm

theorem isFileAt_cons (e : Entry) (rest : List Entry) (comps : List String) :
    IsFileAt (e :: rest) comps ↔ IsFileAt [e] comps ∨ IsFileAt rest comps := by
  constructor
  · intro h
    cases h with
    | atFile _ name hm =>
      rcases List.mem_cons.mp hm with h1 | h1
      · exact Or.inl (IsFileAt.atFile _ _ (by simp [h1]))
      · exact Or.inr (IsFileAt.atFile _ _ h1)
    | inDir _ name sub comps hm hs =>
      rcases List.mem_cons.mp hm with h1 | h1
      · exact Or.inl (IsFileAt.inDir _ _ _ _ (by simp [h1]) hs)
      · exact Or.inr (IsFileAt.inDir _ _ _ _ h1 hs)
  · rintro (h | h)
    · cases h with
      | atFile _ name hm =>
        exact IsFileAt.atFile _ _ (by simp at hm; simp [hm])
      | inDir _ name sub comps hm hs =>
        exact IsFileAt.inDir _ _ _ _ (by simp at hm; simp [hm]) hs
    · cases h with
      | atFile _ name hm => exact IsFileAt.atFile _ _ (List.mem_cons_of_mem _ hm)
      | inDir _ name sub comps hm hs =>
        exact IsFileAt.inDir _ _ _ _ (List.mem_cons_of_mem _ hm) hs

theorem isFileAt_file (name : String) (comps : List String) :
    IsFileAt [Entry.file name] comps ↔ comps = [name] := by
  constructor
  · intro h
    cases h with
    | atFile _ n hm => simp at hm; simp [hm]
    | inDir _ n sub comps hm hs => simp at hm
  · rintro rfl
    exact IsFileAt.atFile _ _ (by simp)

theorem isFileAt_dir (name : String) (sub : List Entry) (comps : List String) :
    IsFileAt [Entry.dir name sub] comps ↔ ∃ tail, comps = name :: tail ∧ IsFileAt sub tail := by
  constructor
  · intro h
    cases h with
    | atFile _ n hm => simp at hm
    | inDir _ n sub' tail hm hs =>
      simp at hm
      obtain ⟨h1, h2⟩ := hm
      subst h1 h2
      exact ⟨tail, rfl, hs⟩
  · rintro ⟨tail, rfl, hs⟩
    exact IsFileAt.inDir _ _ _ _ (by simp) hs

mutual
/-- The paths `walk` pushes are those of the files none of whose components is ignored. -/
theorem mem_walk (s : String) : ∀ (relativePath : String) (entries : List Entry),
    s ∈ walk relativePath entries ↔
      ∃ comps, IsFileAt entries comps ∧ (∀ c ∈ comps, shouldIgnore c = false) ∧
        s = relPath relativePath comps
  | relativePath, [] => by
    simp [walk, isFileAt_nil]
  | relativePath, entry :: rest => by
    rw [walk, List.mem_append, mem_walkEntry s relativePath entry, mem_walk s relativePath rest]
    constructor
    · rintro (⟨comps, h1, h2, h3⟩ | ⟨comps, h1, h2, h3⟩)
      · exact ⟨comps, (isFileAt_cons _ _ _).mpr (Or.inl h1), h2, h3⟩
      · exact ⟨comps, (isFileAt_cons _ _ _).mpr (Or.inr h1), h2, h3⟩
    · rintro ⟨comps, h1, h2, h3⟩
      rcases (isFileAt_cons _ _ _).mp h1 with h | h
      · exact Or.inl ⟨comps, h, h2, h3⟩
      · exact Or.inr ⟨comps, h, h2, h3⟩
/-- The same for the body of the loop, on one entry. -/
theorem mem_walkEntry (s : String) : ∀ (relativePath : String) (entry : Entry),
    s ∈ walkEntry relativePath entry ↔
      ∃ comps, IsFileAt [entry] comps ∧ (∀ c ∈ comps, shouldIgnore c = false) ∧
        s = relPath relativePath comps
  | relativePath, .file name => by
    rw [walkEntry]
    constructor
    · intro h
      cases hi : shouldIgnore name
      · simp only [hi, Bool.false_eq_true, if_false, List.mem_singleton] at h
        refine ⟨[name], (isFileAt_file _ _).mpr rfl, ?_, ?_⟩
        · intro c hc
          rw [List.mem_singleton] at hc
          rw [hc]
          exact hi
        · simp [relPath, h]
      · simp [hi] at h
    · rintro ⟨comps, h1, h2, h3⟩
      have hc := (isFileAt_file _ _).mp h1
      subst hc
      have hi : shouldIgnore name = false := h2 name (by simp)
      simp [hi, h3, relPath]
  | relativePath, .dir name sub => by
    rw [walkEntry]
    constructor
    · intro h
      cases hi : shouldIgnore name
      · simp only [hi, Bool.false_eq_true, if_false] at h
        obtain ⟨tail, t1, t2, t3⟩ := (mem_walk s (pathJoin relativePath name) sub).mp h
        refine ⟨name :: tail, (isFileAt_dir _ _ _).mpr ⟨tail, rfl, t1⟩, ?_, ?_⟩
        · intro c hc
          rcases List.mem_cons.mp hc with hc | hc
          · rw [hc]; exact hi
          · exact t2 c hc
        · simpa [relPath] using t3
      · simp [hi] at h
    · rintro ⟨comps, h1, h2, h3⟩
      obtain ⟨tail, hc, ht⟩ := (isFileAt_dir _ _ _).mp h1
      subst hc
      have hi : shouldIgnore name = false := h2 name (by simp)
      simp only [hi, Bool.false_eq_true, if_false]
      exact (mem_walk s (pathJoin relativePath name) sub).mpr
        ⟨tail, ht, fun c hc => h2 c (List.mem_cons_of_mem _ hc), by simpa [relPath] using h3⟩
end

/-! ### Lemmas on the wildcard pattern -/

theorem matchStar_iff (a : Atom) (k : List Char → Bool) (s : List Char) :
    matchStar a k s = true ↔
      ∃ pre rest, s = pre ++ rest ∧ (∀ x ∈ pre, a.test x = true) ∧ k rest = true := by
  induction s with
  | nil =>
    simp only [matchStar]
    constructor
    · intro h
      exact ⟨[], [], rfl, by simp, h⟩
    · rintro ⟨pre, rest, h1, _, h3⟩
      have hr : rest = [] := (List.append_eq_nil.mp h1.symm).2
      rw [hr] at h3
      exact h3
  | cons c cs ih =>
    simp only [matchStar, Bool.or_eq_true, Bool.and_eq_true, ih]
    constructor
    · rintro (h | ⟨hc, pre, rest, h1, h2, h3⟩)
      · exact ⟨[], c :: cs, rfl, by simp, h⟩
      · refine ⟨c :: pre, rest, by simp [h1], ?_, h3⟩
        intro x hx
        rcases List.mem_cons.mp hx with hx | hx
        · rw [hx]; exact hc
        · exact h2 x hx
    · rintro ⟨pre, rest, h1, h2, h3⟩
      cases pre with
      | nil =>
        left
        simp only [List.nil_append] at h1
        rw [h1]
        exact h3
      | cons p ps =>
        right
        simp only [List.cons_append, List.cons.injEq] at h1
        obtain ⟨hp, hcs⟩ := h1
        subst hp
        exact ⟨h2 c (by simp), ps, rest, hcs, fun x hx => h2 x (List.mem_cons_of_mem _ hx), h3⟩

theorem regexTest_iff (re : List Piece) (s : List Char) :
    regexTest re s = true ↔ ∃ pre rest, s = pre ++ rest ∧ matchHere re rest = true := by
  induction s with
  | nil =>
    simp only [regexTest]
    constructor
    · intro h
      exact ⟨[], [], rfl, h⟩
    · rintro ⟨pre, rest, h1, h2⟩
      have hr : rest = [] := (List.append_eq_nil.mp h1.symm).2
      rw [hr] at h2
      exact h2
  | cons c cs ih =>
    simp only [regexTest, Bool.or_eq_true, ih]
    constructor
    · rintro (h | ⟨pre, rest, h1, h2⟩)
      · exact ⟨[], c :: cs, rfl, h⟩
      · exact ⟨c :: pre, rest, by simp [h1], h2⟩
    · rintro ⟨pre, rest, h1, h2⟩
      cases pre with
      | nil =>
        left
        simp only [List.nil_append] at h1
        rw [h1]
        exact h2
      | cons p ps =>
        right
        simp only [List.cons_append, List.cons.injEq] at h1
        exact ⟨ps, rest, h1.2, h2⟩

/-- The expression that `*.log` becomes. -/
theorem parseRegExp_log :
    parseRegExp (replaceStar "*.log".toList) =
      some [.star .any, .one .any, .one (.chr 'l'), .one (.chr 'o'), .one (.chr 'g')] := by
  decide

theorem matchHere_dot_log (s : List Char) :
    matchHere [.one .any, .one (.chr 'l'), .one (.chr 'o'), .one (.chr 'g')] s = true ↔
      ∃ c post, s = c :: 'l' :: 'o' :: 'g' :: post ∧ isLineTerminator c = false := by
  constructor
  · intro h
    match s, h with
    | c :: x :: y :: z :: post, h =>
      simp only [matchHere, Atom.test, Bool.and_eq_true, Bool.not_eq_true', beq_iff_eq,
        and_true] at h
      obtain ⟨h1, h2, h3, h4⟩ := h
      subst h2 h3 h4
      exact ⟨c, post, rfl, h1⟩
    | [], h => simp [matchHere] at h
    | [_], h => simp [matchHere] at h
    | [_, _], h => simp [matchHere] at h
    | [_, _, _], h => simp [matchHere] at h
  · rintro ⟨c, post, rfl, hc⟩
    simp [matchHere, Atom.test, hc]

/-- What the wildcard pattern excludes: the names in which `log` occurs after a character
that is not a line terminator. -/
theorem wildcard_test_iff (s : List Char) :
    regexTest [.star .any, .one .any, .one (.chr 'l'), .one (.chr 'o'), .one (.chr 'g')] s = true ↔
      ∃ pre c post, s = pre ++ c :: 'l' :: 'o' :: 'g' :: post ∧ isLineTerminator c = false := by
  rw [regexTest_iff]
  constructor
  · rintro ⟨pre, rest, h1, h2⟩
    simp only [matchHere] at h2
    obtain ⟨pre2, rest2, h3, _, h5⟩ := (matchStar_iff _ _ _).mp h2
    obtain ⟨c, post, h6, h7⟩ := (matchHere_dot_log rest2).mp h5
    exact ⟨pre ++ pre2, c, post, by rw [h1, h3, h6, List.append_assoc], h7⟩
  · rintro ⟨pre, c, post, h1, h2⟩
    refine ⟨pre, c :: 'l' :: 'o' :: 'g' :: post, h1, ?_⟩
    simp only [matchHere]
    exact (matchStar_iff _ _ _).mpr
      ⟨[], _, rfl, by simp, (matchHere_dot_log _).mpr ⟨c, post, rfl, h2⟩⟩

/-- The ignore test: a fixed name, or a name the wildcard pattern excludes. -/
theorem shouldIgnore_iff (name : String) :
    shouldIgnore name = true ↔
      name ∈ ["node_modules", ".git", ".privatenpm-temp", ".env", ".env.local"] ∨
      ∃ pre c post, name.toList = pre ++ c :: 'l' :: 'o' :: 'g' :: post ∧
        isLineTerminator c = false := by
  have h1 : patternIgnores name "*.log" =
      regexTest [.star .any, .one .any, .one (.chr 'l'), .one (.chr 'o'), .one (.chr 'g')]
        name.toList := by
    unfold patternIgnores
    rw [if_pos (by decide), parseRegExp_log]
  have h2 : ∀ p : String, p.toList.contains '*' = false → patternIgnores name p = (name == p) := by
    intro p hp
    unfold patternIgnores
    rw [hp]
    rfl
  simp only [shouldIgnore, ignorePatterns, List.any_cons, List.any_nil, Bool.or_false, h1,
    h2 "node_modules" (by decide), h2 ".git" (by decide), h2 ".privatenpm-temp" (by decide),
    h2 ".env" (by decide), h2 ".env.local" (by decide), Bool.or_eq_true, beq_iff_eq,
    wildcard_test_iff]
  simp only [List.mem_cons, List.mem_singleton, List.not_mem_nil, or_false, or_assoc]

/-- Every name that ends with `.log` is excluded. -/
theorem shouldIgnore_of_log_suffix (name : String) (pre : List Char)
    (h : name.toList = pre ++ ".log".toList) : shouldIgnore name = true :=
  (shouldIgnore_iff name).mpr (Or.inr ⟨pre, '.', [], by rw [h]; rfl, by decide⟩)

/-- A run of `install` either returns before the loop or is a run of the loop from the
initial state. -/
theorem install_cases (sv : Semver) (mkdirOk : Bool) (env : Nat → Outcome)
    (manifest : Option Manifest) (packages : List String) (options : Options) :
    install sv mkdirOk env manifest packages options = InstallState.init manifest ∨
    ∃ l, install sv mkdirOk env manifest packages options =
      installLoop sv options env 0 (InstallState.init manifest) l := by
  unfold install
  simp only [readPackageJson]
  repeat' split
  all_goals first | exact Or.inl rfl | exact Or.inr ⟨_, rfl⟩

/-! ## Claims on the install loop and on the file enumeration -/

/-- C6, evaluated where it fails: in `install(["left-pad"], {})` with a `package.json`
that cannot be written, the package is downloaded and extracted, pushed on `installed`,
and then pushed on `failed` as well when `updatePackageJson` throws: one spec, two
entries in the result lists. -/
theorem install_records_twice_on_write_failure :
    runWriteFails.processed = [{ name := "left-pad", version := none }] ∧
    runWriteFails.installed = [("left-pad", "1.2.0")] ∧
    runWriteFails.failed = ["left-pad"] ∧
    runWriteFails.installed.length + runWriteFails.failed.length ≠ ["left-pad"].length := by
  decide

/-- The batch of the specification: of three specs, one with no matching version, two
are installed and one fails, and the manifest is pinned for the two successes only. -/
theorem install_three_specs :
    runThreeSpecs.installed.length = 2 ∧ runThreeSpecs.failed = ["b"] ∧
    runThreeSpecs.manifest.map (fun pkg => pkg.dependencies) =
      some (some [("lodash", "^4.0.0"), ("a", "^1.2.0"), ("c", "^1.2.0")]) := by
  decide

/-- C7 as stated fails: in `install(["p@1.0.0", "p@2.0.0"], {})` with every step
succeeding, both records are on `installed`, yet `dependencies["p"]` is `^2.0.0`, not the
caret pin of the first record. -/
theorem install_pins_each_installed_counterexample :
    runSameNameTwice.failed = [] ∧
    ¬ (∀ r ∈ runSameNameTwice.installed,
        runSameNameTwice.manifest.map (fun pkg => getDep (pkg.depsOf false) r.1) =
          some (some ("^" ++ r.2))) := by
  decide

/-- C7, amended: in an install without the global option, over an existing manifest and
with no manifest write failing, the manifest after the run differs from the one before
only by caret pins.  For every name, `dependencies[name]` (`devDependencies[name]` when
the dev flag is set) is `^` followed by the version of the last record installed under
that name, and is unchanged when no record has that name; the other dependency map and
every other key are unchanged; `updatePackageJson` is called once per installed record
and writes once per call, so that a failed package causes no write. -/
theorem install_manifest_pins (sv : Semver) (mkdirOk : Bool) (env : Nat → Outcome)
    (pkg : Manifest) (packages : List String) (options : Options) (st : InstallState)
    (hst : st = install sv mkdirOk env (some pkg) packages options)
    (hglobal : options.global = none) (hw : ∀ i, (env i).manifestWrite = true) :
    ∃ pkg', st.manifest = some pkg' ∧
      (∀ name, getDep (pkg'.depsOf (flagSet options.saveDev)) name =
        match lastInstalled st.installed name with
        | some v => some ("^" ++ v)
        | none => getDep (pkg.depsOf (flagSet options.saveDev)) name) ∧
      pkg'.depsOf (!flagSet options.saveDev) = pkg.depsOf (!flagSet options.saveDev) ∧
      pkg'.name = pkg.name ∧ pkg'.version = pkg.version ∧
      pkg'.description = pkg.description ∧ pkg'.main = pkg.main ∧
      pkg'.scripts = pkg.scripts ∧ pkg'.other = pkg.other ∧
      st.updateCalls = st.installed.map (fun r => (r.1, r.2, flagSet options.saveDev)) ∧
      st.manifestWrites.length = st.installed.length := by
  have key : ∃ records : List (String × String), st.installed = records ∧
      st.manifest = some (pinAll (flagSet options.saveDev) pkg records) ∧
      st.updateCalls = records.map (fun r => (r.1, r.2, flagSet options.saveDev)) ∧
      st.manifestWrites.length = records.length := by
    have hloop : ∀ l : List String, ∃ records : List (String × String),
        (installLoop sv options env 0 (InstallState.init (some pkg)) l).installed = records ∧
        (installLoop sv options env 0 (InstallState.init (some pkg)) l).manifest =
          some (pinAll (flagSet options.saveDev) pkg records) ∧
        (installLoop sv options env 0 (InstallState.init (some pkg)) l).updateCalls =
          records.map (fun r => (r.1, r.2, flagSet options.saveDev)) ∧
        (installLoop sv options env 0 (InstallState.init (some pkg)) l).manifestWrites.length =
          records.length := by
      intro l
      obtain ⟨records, h1, h2, h3, h4⟩ := installLoop_pins sv options env hglobal hw l 0
        (InstallState.init (some pkg)) pkg rfl
      exact ⟨records, by simpa [InstallState.init] using h1, h2,
        by simpa [InstallState.init] using h3, by simpa [InstallState.init] using h4⟩
    have hinit : ∃ records : List (String × String),
        (InstallState.init (some pkg)).installed = records ∧
        (InstallState.init (some pkg)).manifest =
          some (pinAll (flagSet options.saveDev) pkg records) ∧
        (InstallState.init (some pkg)).updateCalls =
          records.map (fun r => (r.1, r.2, flagSet options.saveDev)) ∧
        (InstallState.init (some pkg)).manifestWrites.length = records.length :=
      ⟨[], by simp [InstallState.init, pinAll]⟩
    subst hst
    rcases install_cases sv mkdirOk env (some pkg) packages options with h | ⟨l, h⟩
    · rw [h]; exact hinit
    · rw [h]; exact hloop l
  obtain ⟨records, h1, h2, h3, h4⟩ := key
  have hf := pinAll_frame (flagSet options.saveDev) records pkg
  refine ⟨_, h2, ?_, hf.1, hf.2.1, hf.2.2.1, hf.2.2.2.1, hf.2.2.2.2.1, hf.2.2.2.2.2.1,
    hf.2.2.2.2.2.2, ?_, ?_⟩
  · intro name
    rw [h1]
    exact getDep_pinAll _ _ _ _
  · rw [h3, h1]
  · rw [h4, h1]

/-- C7, amended, on `install(["p@1.0.0", "p@2.0.0"], {})`: the manifest ends with
`dependencies["p"] = ^2.0.0`, the pin already there is kept, and two writes happened. -/
theorem install_manifest_pins_witness :
    ∃ pkg', runSameNameTwice.manifest = some pkg' ∧
      (∀ name, getDep (pkg'.depsOf false) name =
        match lastInstalled runSameNameTwice.installed name with
        | some v => some ("^" ++ v)
        | none => getDep (exampleManifest.depsOf false) name) ∧
      pkg'.depsOf true = exampleManifest.depsOf true ∧
      pkg'.name = exampleManifest.name ∧ pkg'.version = exampleManifest.version ∧
      pkg'.description = exampleManifest.description ∧ pkg'.main = exampleManifest.main ∧
      pkg'.scripts = exampleManifest.scripts ∧ pkg'.other = exampleManifest.other ∧
      runSameNameTwice.updateCalls = runSameNameTwice.installed.map (fun r => (r.1, r.2, false)) ∧
      runSameNameTwice.manifestWrites.length = runSameNameTwice.installed.length :=
  install_manifest_pins Semver.plain true envAllOk exampleManifest ["p@1.0.0", "p@2.0.0"]
    { saveDev := none, global := none } runSameNameTwice rfl rfl (fun _ => rfl)

/-- C8 as stated fails: in `install(["left-pad"], { saveDev: true, global: true })` the
successful installation calls `updatePackageJson`, which pins the package in
`devDependencies`. -/
theorem install_global_saveDev_updates_counterexample :
    runGlobalSaveDev.updateCalls = [("left-pad", "1.2.0", true)] ∧
    runGlobalSaveDev.manifest.map (fun pkg => pkg.devDependencies) =
      some (some [("left-pad", "^1.2.0")]) ∧
    runGlobalSaveDev.manifest ≠ some exampleManifest := by
  decide

/-- C8, amended: when the global option is set and the save-dev flag is not, `install`
never calls `updatePackageJson`, writes no manifest and leaves the manifest as it was,
for every list of specs and every outcome. -/
theorem install_global_no_update (sv : Semver) (mkdirOk : Bool) (env : Nat → Outcome)
    (manifest : Option Manifest) (packages : List String) (options : Options)
    (hglobal : options.global ≠ none) (hsave : flagSet options.saveDev = false) :
    (install sv mkdirOk env manifest packages options).updateCalls = [] ∧
    (install sv mkdirOk env manifest packages options).manifestWrites = [] ∧
    (install sv mkdirOk env manifest packages options).manifest = manifest := by
  have hloop : ∀ l : List String,
      (installLoop sv options env 0 (InstallState.init manifest) l).updateCalls = [] ∧
      (installLoop sv options env 0 (InstallState.init manifest) l).manifestWrites = [] ∧
      (installLoop sv options env 0 (InstallState.init manifest) l).manifest = manifest := by
    intro l
    obtain ⟨h1, h2, h3⟩ := installLoop_skip sv options env hglobal hsave l 0
      (InstallState.init manifest)
    exact ⟨h2, h3, h1⟩
  have hinit : (InstallState.init manifest).updateCalls = [] ∧
      (InstallState.init manifest).manifestWrites = [] ∧
      (InstallState.init manifest).manifest = manifest := ⟨rfl, rfl, rfl⟩
  rcases install_cases sv mkdirOk env manifest packages options with h | ⟨l, h⟩
  · rw [h]; exact hinit
  · rw [h]; exact hloop l

/-- C8, amended, on `install(["left-pad"], { global: true })` with every step succeeding:
the package is installed and the manifest is not touched. -/
theorem install_global_no_update_witness :
    (install Semver.plain true envAllOk (some exampleManifest) ["left-pad"]
      { saveDev := none, global := some true }).installed = [("left-pad", "1.2.0")] ∧
    ((install Semver.plain true envAllOk (some exampleManifest) ["left-pad"]
      { saveDev := none, global := some true }).updateCalls = [] ∧
    (install Semver.plain true envAllOk (some exampleManifest) ["left-pad"]
      { saveDev := none, global := some true }).manifestWrites = [] ∧
    (install Semver.plain true envAllOk (some exampleManifest) ["left-pad"]
      { saveDev := none, global := some true }).manifest = some exampleManifest) :=
  ⟨by decide,
   install_global_no_update Semver.plain true envAllOk (some exampleManifest) ["left-pad"]
    { saveDev := none, global := some true } (by decide) rfl⟩

/-- C9, evaluated where it fails: the entry `notlog.txt` is none of the fixed names and
does not end with `.log`, yet the ignore test excludes it, because the pattern `*.log` is
tested as the unanchored expression `.*.log`.  The entry `debug.log` is excluded, as
claimed. -/
theorem shouldIgnore_notlog_txt :
    shouldIgnore "notlog.txt" = true ∧
    "notlog.txt" ∉ ["node_modules", ".git", ".privatenpm-temp", ".env", ".env.local"] ∧
    ".log".toList.isSuffixOf "notlog.txt".toList = false ∧
    parseRegExp (replaceStar "*.log".toList) =
      some [.star .any, .one .any, .one (.chr 'l'), .one (.chr 'o'), .one (.chr 'g')] ∧
    shouldIgnore "debug.log" = true := by
  decide

/-- C10: `getPackageFiles` returns a path if and only if it is the relative path of a file
of the tree no component of which (enclosing directory names and file name) is matched by
the ignore test; `.git` and `node_modules` are matched, so that a file below a directory
of either name is excluded at any depth. -/
theorem getPackageFiles_iff (entries : List Entry) (s : String) :
    (s ∈ getPackageFiles entries ↔
      ∃ comps, IsFileAt entries comps ∧ (∀ c ∈ comps, shouldIgnore c = false) ∧
        s = relPath "" comps) ∧
    shouldIgnore ".git" = true ∧ shouldIgnore "node_modules" = true :=
  ⟨mem_walk s "" entries, by decide, by decide⟩

/-- C10 on a tree with `.git/config`, `.git/objects/pack`, `index.js`, `debug.log`,
`src/a.js` and `src/node_modules/x.js`: the files returned are `index.js` and `src/a.js`,
and `.git/config` is not among them. -/
theorem getPackageFiles_iff_witness :
    getPackageFiles exampleTree = ["index.js", "src/a.js"] ∧
    ("src/a.js" ∈ getPackageFiles exampleTree ↔
      ∃ comps, IsFileAt exampleTree comps ∧ (∀ c ∈ comps, shouldIgnore c = false) ∧
        "src/a.js" = relPath "" comps) ∧
    ¬ (∃ comps, IsFileAt exampleTree comps ∧ (∀ c ∈ comps, shouldIgnore c = false) ∧
        ".git/config" = relPath "" comps) :=
  ⟨by decide, (getPackageFiles_iff exampleTree "src/a.js").1,
   fun h => absurd ((getPackageFiles_iff exampleTree ".git/config").1.mpr h) (by decide)⟩

/-! ## Claims on publish and on the registry client -/

/-- C11: `publish` requires a manifest with a non-empty name and a non-empty version.  When
the manifest is absent, or its name or its version is missing or empty, `publish` reports
a failure, sends no HTTP request, and creates no staging directory (the file system is as
it was). -/
theorem publish_requires_name_and_version (crypto : Crypto)
    (encodeURIComponent : String → String) (env : Env) (access : Option String)
    (h : env.manifest = none ∨
      ∃ pkg, env.manifest = some pkg ∧ (truthy pkg.name = false ∨ truthy pkg.version = false)) :
    (publish crypto encodeURIComponent env access).outcome.isFailure = true ∧
    (publish crypto encodeURIComponent env access).requests = [] ∧
    (publish crypto encodeURIComponent env access).stagingCreated = false ∧
    (publish crypto encodeURIComponent env access).stagingExists = env.stagingBefore := by
  unfold publish
  by_cases ht : truthy env.config.token = true
  · rcases h with h | ⟨pkg, h, hf⟩
    · simp [ht, h, readPackageJson, InstallState.init, PublishOutcome.isFailure]
    · rcases hf with hf | hf <;>
        simp [ht, h, hf, readPackageJson, InstallState.init, PublishOutcome.isFailure]
  · simp [ht, PublishOutcome.isFailure]

/-- C11 on an environment without `package.json` and on one whose manifest has an empty
version. -/
theorem publish_requires_name_and_version_witness :
    (publish exampleCrypto id { exampleEnv with manifest := none } none).outcome =
      .noManifest ∧
    ((publish exampleCrypto id
        { exampleEnv with manifest := some { exampleManifest with version := some "" } }
        none).outcome.isFailure = true ∧
      (publish exampleCrypto id
        { exampleEnv with manifest := some { exampleManifest with version := some "" } }
        none).requests = [] ∧
      (publish exampleCrypto id
        { exampleEnv with manifest := some { exampleManifest with version := some "" } }
        none).stagingCreated = false ∧
      (publish exampleCrypto id
        { exampleEnv with manifest := some { exampleManifest with version := some "" } }
        none).stagingExists = false) :=
  ⟨by decide,
   publish_requires_name_and_version exampleCrypto id
    { exampleEnv with manifest := some { exampleManifest with version := some "" } } none
    (Or.inr ⟨{ exampleManifest with version := some "" }, rfl, Or.inr (by decide)⟩)⟩

/-- The run of `publish` with a token, a manifest that has a name and a version, and a
packing that returns a buffer: one request, a `PUT` of the publish document. -/
theorem publish_eq (crypto : Crypto) (encodeURIComponent : String → String)
    (env : Env) (access : Option String) (pkg : Manifest) (name version : String)
    (tarballBuffer : Bytes) (htoken : truthy env.config.token = true)
    (hm : env.manifest = some pkg) (hname : pkg.name = some name) (hne : name ≠ "")
    (hversion : pkg.version = some version) (hve : version ≠ "")
    (hpack : (createTarball env.tree env.pack env.stagingBefore).tarball = some tarballBuffer) :
    publish crypto encodeURIComponent env access =
      { requests := [apiRequest env.config ("/" ++ encodeURIComponent name)
          { method := some "PUT"
            body := some (.document (publishBody crypto pkg name version
              (orDefault access "public") (getReadme env.readFile) tarballBuffer))
            headers := none }]
        outcome :=
          match env.fetch (apiRequest env.config ("/" ++ encodeURIComponent name)
            { method := some "PUT"
              body := some (.document (publishBody crypto pkg name version
                (orDefault access "public") (getReadme env.readFile) tarballBuffer))
              headers := none }) with
          | none => .threw
          | some response =>
            match response.json with
            | none => .threw
            | some result =>
              if !response.ok then .failed ("Publish failed: " ++ errorMessage result)
              else .published (orDefault access "public" == "restricted" ||
                orDefault access "public" == "private")
        stagingCreated := (createTarball env.tree env.pack env.stagingBefore).stagingCreated
        stagingExists := (createTarball env.tree env.pack env.stagingBefore).stagingExists } := by
  have hn : truthy pkg.name = true := by simp [hname, truthy, hne]
  have hv : truthy pkg.version = true := by simp [hversion, truthy, hve]
  unfold publish
  simp only [htoken, hm, hn, hv, hpack, readPackageJson, InstallState.init, Bool.not_true,
    Bool.false_eq_true, if_false, Bool.or_self]
  simp only [hname, hversion, Option.getD_some]

theorem publish_sends_document (crypto : Crypto) (encodeURIComponent : String → String)
    (env : Env) (access : Option String) (pkg : Manifest) (name version : String)
    (tarballBuffer : Bytes) (htoken : truthy env.config.token = true)
    (hm : env.manifest = some pkg) (hname : pkg.name = some name) (hne : name ≠ "")
    (hversion : pkg.version = some version) (hve : version ≠ "")
    (hpack : (createTarball env.tree env.pack env.stagingBefore).tarball = some tarballBuffer) :
    (publish crypto encodeURIComponent env access).requests =
      [apiRequest env.config ("/" ++ encodeURIComponent name)
        { method := some "PUT"
          body := some (.document (publishBody crypto pkg name version
            (orDefault access "public") (getReadme env.readFile) tarballBuffer))
          headers := none }] := by
  rw [publish_eq crypto encodeURIComponent env access pkg name version tarballBuffer htoken hm
    hname hne hversion hve hpack]

/-- C12: the publish document is self-consistent.  For a manifest with a non-empty name
and version and an archive `tarballBuffer`, the one request of `publish` carries a document
whose `dist-tags.latest` is the manifest version, whose `versions` map has the manifest
version as its single key, with a record carrying the manifest name and version, the hex
SHA-1 of the archive as `dist.shasum`, `sha512-` followed by the base64 SHA-512 as
`dist.integrity` and the empty string as `dist.tarball`, and whose single attachment holds
the base64 encoding of the archive and its byte length. -/
theorem publish_document_consistent (crypto : Crypto) (encodeURIComponent : String → String)
    (env : Env) (access : Option String) (pkg : Manifest) (name version : String)
    (tarballBuffer : Bytes) (htoken : truthy env.config.token = true)
    (hm : env.manifest = some pkg) (hname : pkg.name = some name) (hne : name ≠ "")
    (hversion : pkg.version = some version) (hve : version ≠ "")
    (hpack : (createTarball env.tree env.pack env.stagingBefore).tarball = some tarballBuffer) :
    ∃ request doc record key attachment,
      (publish crypto encodeURIComponent env access).requests = [request] ∧
      request.body = some (.document doc) ∧
      DepMap.get doc.distTags "latest" = some version ∧
      doc.versions = [(version, record)] ∧
      record.name = name ∧ record.version = version ∧
      record.dist.shasum = crypto.sha1Hex tarballBuffer ∧
      record.dist.integrity = "sha512-" ++ crypto.sha512Base64 tarballBuffer ∧
      record.dist.tarball = "" ∧
      doc.attachments = [(key, attachment)] ∧
      attachment.data = crypto.base64 tarballBuffer ∧
      attachment.length = tarballBuffer.length := by
  refine ⟨_, _, _, _, _, publish_sends_document crypto encodeURIComponent env access pkg name
    version tarballBuffer htoken hm hname hne hversion hve hpack, rfl, ?_, rfl, rfl, rfl, rfl,
    rfl, rfl, rfl, rfl, rfl⟩
  simp [publishBody, DepMap.get]

/-- C12 on the example environment: the manifest `app@0.1.0` and an archive of three
bytes. -/
theorem publish_document_consistent_witness :
    ∃ request doc record key attachment,
      (publish exampleCrypto id exampleEnv none).requests = [request] ∧
      request.body = some (.document doc) ∧
      DepMap.get doc.distTags "latest" = some "0.1.0" ∧
      doc.versions = [("0.1.0", record)] ∧
      record.name = "app" ∧ record.version = "0.1.0" ∧
      record.dist.shasum = exampleCrypto.sha1Hex [31, 139, 8] ∧
      record.dist.integrity = "sha512-" ++ exampleCrypto.sha512Base64 [31, 139, 8] ∧
      record.dist.tarball = "" ∧
      doc.attachments = [(key, attachment)] ∧
      attachment.data = exampleCrypto.base64 [31, 139, 8] ∧
      attachment.length = [31, 139, 8].length :=
  publish_document_consistent exampleCrypto id exampleEnv none exampleManifest "app" "0.1.0"
    [31, 139, 8] (by decide) rfl rfl (by decide) rfl (by decide) (by decide)

/-- C13 as stated fails: the document published with access `private` carries the access
value `private`, the one published with `restricted` carries `restricted`. -/
theorem publish_access_private_counterexample :
    sentAccess (publish exampleCrypto id exampleEnv (some "private")) = some "private" ∧
    sentAccess (publish exampleCrypto id exampleEnv (some "restricted")) = some "restricted" ∧
    sentAccess (publish exampleCrypto id exampleEnv (some "private")) ≠
      sentAccess (publish exampleCrypto id exampleEnv (some "restricted")) := by
  decide

/-- C13, amended: the access value sent is the access option verbatim, and `public` when no
access option (or an empty one) is given; `restricted` and `private` are synonyms for the
label that `publish` shows after a successful request, not for the value sent. -/
theorem publish_access_sent (crypto : Crypto) (encodeURIComponent : String → String)
    (env : Env) (access : Option String) (pkg : Manifest) (name version : String)
    (tarballBuffer : Bytes) (htoken : truthy env.config.token = true)
    (hm : env.manifest = some pkg) (hname : pkg.name = some name) (hne : name ≠ "")
    (hversion : pkg.version = some version) (hve : version ≠ "")
    (hpack : (createTarball env.tree env.pack env.stagingBefore).tarball = some tarballBuffer) :
    (∀ a, access = some a → a ≠ "" →
      sentAccess (publish crypto encodeURIComponent env access) = some a) ∧
    (access = none ∨ access = some "" →
      sentAccess (publish crypto encodeURIComponent env access) = some "public") ∧
    (∀ isPrivate, (publish crypto encodeURIComponent env access).outcome = .published isPrivate →
      (isPrivate = true ↔ access = some "restricted" ∨ access = some "private")) := by
  have hreq := publish_sends_document crypto encodeURIComponent env access pkg name version
    tarballBuffer htoken hm hname hne hversion hve hpack
  have hsent : sentAccess (publish crypto encodeURIComponent env access) =
      some (orDefault access "public") := by
    simp [sentAccess, hreq, apiRequest, publishBody]
  refine ⟨?_, ?_, ?_⟩
  · intro a ha hane
    rw [hsent, ha]
    simp [orDefault, truthy, hane]
  · rintro (ha | ha) <;> rw [hsent, ha] <;> simp [orDefault, truthy]
  · intro isPrivate hout
    rw [publish_eq crypto encodeURIComponent env access pkg name version tarballBuffer htoken hm
      hname hne hversion hve hpack] at hout
    simp only [] at hout
    cases hf : env.fetch (apiRequest env.config ("/" ++ encodeURIComponent name)
        { method := some "PUT"
          body := some (.document (publishBody crypto pkg name version
            (orDefault access "public") (getReadme env.readFile) tarballBuffer))
          headers := none }) with
    | none => simp only [hf] at hout; cases hout
    | some response =>
      simp only [hf] at hout
      cases hj : response.json with
      | none => simp only [hj] at hout; cases hout
      | some result =>
        simp only [hj] at hout
        by_cases hok : response.ok = true
        · simp only [hok, Bool.not_true, Bool.false_eq_true, if_false,
            PublishOutcome.published.injEq] at hout
          rw [← hout]
          cases access with
          | none => simp [orDefault]
          | some a =>
            by_cases hane : a = ""
            · subst hane
              simp [orDefault, truthy]
            · simp [orDefault, truthy, hane]
        · simp [hok] at hout

/-- C13, amended, on the example environment: with access `private` the value sent is
`private`, and with no access option it is `public`. -/
theorem publish_access_sent_witness :
    sentAccess (publish exampleCrypto id exampleEnv (some "private")) = some "private" ∧
    sentAccess (publish exampleCrypto id exampleEnv none) = some "public" :=
  ⟨(publish_access_sent exampleCrypto id exampleEnv (some "private") exampleManifest "app"
      "0.1.0" [31, 139, 8] (by decide) rfl rfl (by decide) rfl (by decide) (by decide)).1
      "private" rfl (by decide),
   (publish_access_sent exampleCrypto id exampleEnv none exampleManifest "app" "0.1.0"
      [31, 139, 8] (by decide) rfl rfl (by decide) rfl (by decide) (by decide)).2.1
      (Or.inl rfl)⟩

/-- C14 as stated fails: when a staging directory is left from an earlier run and the
enumeration of the project files throws, `createTarball` raises before its `try` block
and the directory still exists. -/
theorem createTarball_staging_counterexample :
    (createTarball exampleTree packEnumerateFails true).tarball = none ∧
    (createTarball exampleTree packEnumerateFails true).stagingExists = true := by
  decide

/-- C14, amended: when the enumeration of the project files succeeds and the final removal
itself does not fail, the staging directory does not exist when `createTarball` returns or
raises, whether the creation of the directory, the copies, the archiving or the reading of
the archive succeed or fail and whether the directory existed before.  When the
enumeration fails, `createTarball` raises without creating the directory and leaves the
file system as it was. -/
theorem createTarball_staging_removed (tree : List Entry) (out : PackOutcome)
    (stagingBefore : Bool) :
    (out.enumerate = true → out.rm = true →
      (createTarball tree out stagingBefore).stagingExists = false) ∧
    (out.enumerate = false →
      (createTarball tree out stagingBefore).tarball = none ∧
      (createTarball tree out stagingBefore).stagingCreated = false ∧
      (createTarball tree out stagingBefore).stagingExists = stagingBefore) := by
  constructor
  · intro he hr
    simp [createTarball, he, hr]
  · intro he
    simp [createTarball, he]

/-- C14, amended, on the example tree: with a leftover directory and the archiving
failing, the directory is gone at the end; with the enumeration failing it is left as it
was. -/
theorem createTarball_staging_removed_witness :
    (createTarball exampleTree { packAllOk with archive := false } true).stagingExists = false ∧
    ((createTarball exampleTree packEnumerateFails true).tarball = none ∧
      (createTarball exampleTree packEnumerateFails true).stagingCreated = false ∧
      (createTarball exampleTree packEnumerateFails true).stagingExists = true) :=
  ⟨(createTarball_staging_removed exampleTree { packAllOk with archive := false } true).1
      rfl rfl,
   (createTarball_staging_removed exampleTree packEnumerateFails true).2 rfl⟩

/-- C15 as stated fails: on a `200` response whose body is the JSON value `null`,
`getPackageMetadata` returns `null` although the status is not 404. -/
theorem getPackageMetadata_null_body_counterexample :
    getPackageMetadata id exampleConfig
      (fun _ => some { status := 200, statusText := "OK", json := some none }) "left-pad" =
      .ok none ∧
    (200 : Nat) ≠ 404 :=
  ⟨rfl, by decide⟩

/-- C15, amended: on a response to the metadata request, `getPackageMetadata` returns the
parsed body when the status is a success, returns `null` when the status is 404, and
raises for every other non-success status; it returns `null` only for the status 404 or
for a success whose body is itself the JSON value `null`. -/
theorem getPackageMetadata_by_status (encodeURIComponent : String → String) (config : Config)
    (packageName : String) (response : Response (Option Metadata)) :
    (response.ok = true → ∀ value, response.json = some value →
      getPackageMetadata encodeURIComponent config (fun _ => some response) packageName =
        .ok value) ∧
    (response.status = 404 →
      getPackageMetadata encodeURIComponent config (fun _ => some response) packageName =
        .ok none) ∧
    (response.ok = false → response.status ≠ 404 →
      getPackageMetadata encodeURIComponent config (fun _ => some response) packageName =
        .error ("Failed to fetch package: " ++ response.statusText)) ∧
    (getPackageMetadata encodeURIComponent config (fun _ => some response) packageName =
        .ok none →
      response.status = 404 ∨ (response.ok = true ∧ response.json = some none)) := by
  refine ⟨?_, ?_, ?_, ?_⟩
  · intro hok value hj
    simp [getPackageMetadata, hok, hj]
  · intro h404
    have hok : response.ok = false := by simp [Response.ok, h404]
    simp [getPackageMetadata, hok, h404]
  · intro hok hne
    simp [getPackageMetadata, hok, hne]
  · intro h
    unfold getPackageMetadata at h
    by_cases hok : response.ok = true
    · simp only [hok, Bool.not_true, Bool.false_eq_true, if_false] at h
      cases hj : response.json with
      | none => simp [hj] at h
      | some value =>
        simp only [hj, Except.ok.injEq] at h
        subst h
        exact Or.inr ⟨hok, rfl⟩
    · by_cases h404 : response.status = 404
      · exact Or.inl h404
      · simp [hok, h404] at h

/-- C15, amended, on three responses: a `200` with the example document, a `404` and a
`500`. -/
theorem getPackageMetadata_by_status_witness :
    getPackageMetadata id exampleConfig
        (fun _ => some { status := 200, statusText := "OK", json := some (some exampleMetadata) })
        "left-pad" = .ok (some exampleMetadata) ∧
    getPackageMetadata id exampleConfig
        (fun _ => some { status := 404, statusText := "Not Found", json := none })
        "left-pad" = .ok none ∧
    getPackageMetadata id exampleConfig
        (fun _ => some { status := 500, statusText := "Internal Server Error", json := none })
        "left-pad" = .error "Failed to fetch package: Internal Server Error" :=
  ⟨(getPackageMetadata_by_status id exampleConfig "left-pad"
      { status := 200, statusText := "OK", json := some (some exampleMetadata) }).1 (by decide)
      (some exampleMetadata) rfl,
   (getPackageMetadata_by_status id exampleConfig "left-pad"
      { status := 404, statusText := "Not Found", json := none }).2.1 rfl,
   (getPackageMetadata_by_status id exampleConfig "left-pad"
      { status := 500, statusText := "Internal Server Error", json := none }).2.2.1
      (by decide) (by decide)⟩

/-! ### Lemmas on the handlers -/

/-- Without a token `publish` stops on its first guard. -/
theorem publish_not_logged_in (crypto : Crypto) (encodeURIComponent : String → String)
    (env : Env) (access : Option String) (ht : truthy env.config.token = false) :
    publish crypto encodeURIComponent env access =
      { requests := [], outcome := .notLoggedIn, stagingCreated := false,
        stagingExists := env.stagingBefore } := by
  simp [publish, ht]

/-- With a token, `publish` sends no request when it returns on a manifest guard, and one
request unless it ends in its `catch` block before sending it. -/
theorem publish_request_count (crypto : Crypto) (encodeURIComponent : String → String)
    (env : Env) (access : Option String) (ht : truthy env.config.token = true)
    (hthrew : (publish crypto encodeURIComponent env access).outcome ≠ .threw) :
    (publish crypto encodeURIComponent env access).requests.length =
      if (Command.publish access).returnsEarly env then 0 else 1 := by
  obtain ⟨config, manifest, tree, pack, stagingBefore, readFile, fetch, promptName⟩ := env
  unfold publish at hthrew ⊢
  simp only [] at ht
  simp only [ht, Bool.not_true, Bool.false_eq_true, if_false, readPackageJson,
    InstallState.init, Command.returnsEarly] at hthrew ⊢
  cases manifest with
  | none => simp
  | some pkg =>
    simp only [] at hthrew ⊢
    by_cases hg : (!truthy pkg.name || !truthy pkg.version) = true
    · simp [hg]
    · simp only [hg, Bool.false_eq_true, if_false] at hthrew ⊢
      cases hp : (createTarball tree pack stagingBefore).tarball with
      | none => simp [hp] at hthrew
      | some tarballBuffer => simp

/-- C16 as stated fails: with a token present, `token create` sends no request when the
prompt is aborted, and `publish` sends none when there is no `package.json`; neither ends
in an exception. -/
theorem handler_one_request_counterexample :
    Command.run exampleCrypto id { exampleEnv with promptName := none } .createToken =
      { requests := [], outcome := .cancelled } ∧
    Command.run exampleCrypto id { exampleEnv with manifest := none } (.publish none) =
      { requests := [], outcome := .failed "No package.json found in current directory" } ∧
    truthy exampleEnv.config.token = true := by
  decide

/-- C16, amended: every handler that requires a session returns on its missing-token guard
with no HTTP request when the configuration has no token; with a token present and no
exception it issues exactly one request, except that `publish` issues none when the
manifest is absent or lacks a name or a version, and `token create` issues none when the
prompt gives no name. -/
theorem handler_request_count (crypto : Crypto) (encodeURIComponent : String → String)
    (env : Env) (cmd : Command) :
    (truthy env.config.token = false →
      (cmd.run crypto encodeURIComponent env).requests = [] ∧
      (cmd.run crypto encodeURIComponent env).outcome = .notLoggedIn) ∧
    (truthy env.config.token = true →
      (cmd.run crypto encodeURIComponent env).outcome ≠ .threw →
      (cmd.run crypto encodeURIComponent env).requests.length =
        if cmd.returnsEarly env then 0 else 1) := by
  constructor
  · intro ht
    cases cmd with
    | publish access =>
      simp [Command.run, publish_not_logged_in crypto encodeURIComponent env access ht,
        PublishResult.toHandler]
    | accessPublic packageName => simp [Command.run, accessPublic, setAccess, ht]
    | accessRestricted packageName => simp [Command.run, accessRestricted, setAccess, ht]
    | grantAccess packageName username readWrite => simp [Command.run, grantAccess, ht]
    | revokeAccess packageName username => simp [Command.run, revokeAccess, ht]
    | listCollaborators packageName => simp [Command.run, listCollaborators, ht]
    | createOrg name displayName => simp [Command.run, createOrg, ht]
    | listOrgs => simp [Command.run, listOrgs, ht]
    | showOrg name => simp [Command.run, showOrg, ht]
    | deleteOrg name => simp [Command.run, deleteOrg, ht]
    | addMember orgName username role => simp [Command.run, addMember, ht]
    | removeMember orgName username => simp [Command.run, removeMember, ht]
    | listOrgPackages orgName => simp [Command.run, listOrgPackages, ht]
    | createToken => simp [Command.run, createToken, ht]
    | listTokens => simp [Command.run, listTokens, ht]
    | revokeToken tokenId => simp [Command.run, revokeToken, ht]
  · intro ht hthrew
    cases cmd with
    | publish access =>
      have hne : (publish crypto encodeURIComponent env access).outcome ≠ .threw := by
        intro h
        apply hthrew
        simp [Command.run, PublishResult.toHandler, h]
      simpa [Command.run, PublishResult.toHandler] using
        publish_request_count crypto encodeURIComponent env access ht hne
    | accessPublic packageName =>
      simp [Command.run, accessPublic, setAccess, ht, Command.returnsEarly]
    | accessRestricted packageName =>
      simp [Command.run, accessRestricted, setAccess, ht, Command.returnsEarly]
    | grantAccess packageName username readWrite =>
      simp [Command.run, grantAccess, ht, Command.returnsEarly]
    | revokeAccess packageName username =>
      simp [Command.run, revokeAccess, ht, Command.returnsEarly]
    | listCollaborators packageName =>
      simp [Command.run, listCollaborators, ht, Command.returnsEarly]
    | createOrg name displayName => simp [Command.run, createOrg, ht, Command.returnsEarly]
    | listOrgs => simp [Command.run, listOrgs, ht, Command.returnsEarly]
    | showOrg name => simp [Command.run, showOrg, ht, Command.returnsEarly]
    | deleteOrg name => simp [Command.run, deleteOrg, ht, Command.returnsEarly]
    | addMember orgName username role =>
      simp [Command.run, addMember, ht, Command.returnsEarly]
    | removeMember orgName username =>
      simp [Command.run, removeMember, ht, Command.returnsEarly]
    | listOrgPackages orgName => simp [Command.run, listOrgPackages, ht, Command.returnsEarly]
    | createToken =>
      clear hthrew
      obtain ⟨config, manifest, tree, pack, stagingBefore, readFile, fetch, promptName⟩ := env
      simp only [] at ht
      simp only [Command.run, createToken, ht, Command.returnsEarly, Bool.not_true,
        Bool.false_eq_true, if_false]
      cases promptName with
      | none => simp [truthy]
      | some name =>
        by_cases hn : truthy (some name) = true
        · simp [hn]
        · simp [hn]
    | listTokens => simp [Command.run, listTokens, ht, Command.returnsEarly]
    | revokeToken tokenId => simp [Command.run, revokeToken, ht, Command.returnsEarly]

/-- C16, amended, on the example environment: `org create` sends no request without a
token and one request with it. -/
theorem handler_request_count_witness :
    ((Command.run exampleCrypto id envNoToken (.createOrg "acme" none)).requests = [] ∧
      (Command.run exampleCrypto id envNoToken (.createOrg "acme" none)).outcome =
        .notLoggedIn) ∧
    (Command.run exampleCrypto id exampleEnv (.createOrg "acme" none)).requests.length = 1 :=
  ⟨(handler_request_count exampleCrypto id envNoToken (.createOrg "acme" none)).1 (by decide),
   (handler_request_count exampleCrypto id exampleEnv (.createOrg "acme" none)).2
      (by decide) (by decide)⟩

/-! ### Lemmas on the headers -/

theorem DepMap.get_cons (e : String × String) (rest : DepMap) (k : String) :
    DepMap.get (e :: rest) k = if e.1 = k then some e.2 else DepMap.get rest k := by
  by_cases h : e.1 = k <;> simp [DepMap.get, List.find?_cons, h]

theorem DepMap.get_eq_none_of_not_mem (d : DepMap) (k : String) (h : k ∉ d.map Prod.fst) :
    DepMap.get d k = none := by
  induction d with
  | nil => rfl
  | cons e rest ih =>
    rw [DepMap.get_cons]
    have h1 : e.1 ≠ k := fun heq => h (by simp [heq])
    have h2 : k ∉ rest.map Prod.fst := fun hmem => h (by simp at hmem ⊢; exact Or.inr hmem)
    rw [if_neg h1, ih h2]

/-- A read of the spread `{ ...a, ...b }` of two objects: the value in `b`, else the one in
`a`. -/
theorem DepMap.get_spread (b : DepMap) (hb : (b.map Prod.fst).Nodup) (a : DepMap) (k : String) :
    DepMap.get (DepMap.spread a b) k =
      match DepMap.get b k with
      | some v => some v
      | none => DepMap.get a k := by
  induction b generalizing a with
  | nil => rfl
  | cons e rest ih =>
    have hnodup : (rest.map Prod.fst).Nodup := (List.nodup_cons.mp hb).2
    have hnot : e.1 ∉ rest.map Prod.fst := (List.nodup_cons.mp hb).1
    have h := ih hnodup (DepMap.set a e.1 e.2)
    simp only [DepMap.spread, List.foldl_cons] at h ⊢
    rw [h, DepMap.get_cons, DepMap.get_set]
    by_cases hk : e.1 = k
    · subst hk
      rw [DepMap.get_eq_none_of_not_mem rest e.1 hnot]
      simp
    · simp [hk]

/-- C17: the request of `apiRequest` goes to the configured registry base followed by the
endpoint; its headers are the caller-supplied headers laid over the default
`Content-Type: application/json`, except that with a token present the header
`Authorization` is exactly `Bearer <token>`, also when the caller supplied its own; with no
token present no header is added.  The caller-supplied headers are an object, so their
keys are distinct. -/
theorem apiRequest_headers (config : Config) (endpoint : String) (options : RequestOptions)
    (hkeys : ((options.headers.getD []).map Prod.fst).Nodup) :
    (apiRequest config endpoint options).url = config.registry ++ endpoint ∧
    (apiRequest config endpoint options).method = options.method ∧
    (apiRequest config endpoint options).body = options.body ∧
    (∀ token, config.token = some token → token ≠ "" →
      DepMap.get (apiRequest config endpoint options).headers "Authorization" =
        some ("Bearer " ++ token) ∧
      ∀ k, k ≠ "Authorization" →
        DepMap.get (apiRequest config endpoint options).headers k =
          laidOver (options.headers.getD []) k) ∧
    (truthy config.token = false →
      ∀ k, DepMap.get (apiRequest config endpoint options).headers k =
        laidOver (options.headers.getD []) k) := by
  have hlaid : ∀ k, DepMap.get
      (DepMap.spread [("Content-Type", "application/json")] (options.headers.getD [])) k =
      laidOver (options.headers.getD []) k := by
    intro k
    rw [DepMap.get_spread _ hkeys, laidOver]
    cases DepMap.get (options.headers.getD []) k with
    | some v => rfl
    | none =>
      simp only [DepMap.get_cons]
      by_cases hk : k = "Content-Type"
      · simp [hk]
      · have hk' : ¬ "Content-Type" = k := fun h => hk h.symm
        simp [hk, hk', DepMap.get]
  refine ⟨rfl, rfl, rfl, ?_, ?_⟩
  · intro token ht hne
    have htr : truthy (some token) = true := by simp [truthy, hne]
    constructor
    · simp [apiRequest, ht, htr, DepMap.get_set]
    · intro k hk
      have hk' : ¬ "Authorization" = k := fun h => hk h.symm
      simp only [apiRequest, ht, htr, if_true, DepMap.get_set, if_neg hk']
      exact hlaid k
  · intro ht k
    cases hc : config.token with
    | none =>
      simp only [apiRequest, hc]
      exact hlaid k
    | some token =>
      rw [hc] at ht
      simp only [apiRequest, hc, ht, Bool.false_eq_true, if_false]
      exact hlaid k

/-- C17 on a call whose caller supplies `Authorization` and `Accept`: with the token
`secret` the request carries `Bearer secret`, the caller's `Accept` and the default
content type. -/
theorem apiRequest_headers_witness :
    (apiRequest exampleConfig "/-/org"
      { method := none, body := none,
        headers := some [("Authorization", "Basic abc"), ("Accept", "text/plain")] }).url =
      "https://registry.example/-/org" ∧
    DepMap.get (apiRequest exampleConfig "/-/org"
      { method := none, body := none,
        headers := some [("Authorization", "Basic abc"), ("Accept", "text/plain")] }).headers
      "Authorization" = some "Bearer secret" ∧
    (∀ k, k ≠ "Authorization" →
      DepMap.get (apiRequest exampleConfig "/-/org"
        { method := none, body := none,
          headers := some [("Authorization", "Basic abc"), ("Accept", "text/plain")] }).headers k
        = laidOver [("Authorization", "Basic abc"), ("Accept", "text/plain")] k) :=
  ⟨(apiRequest_headers exampleConfig "/-/org"
      { method := none, body := none,
        headers := some [("Authorization", "Basic abc"), ("Accept", "text/plain")] }
      (by decide)).1,
   ((apiRequest_headers exampleConfig "/-/org"
      { method := none, body := none,
        headers := some [("Authorization", "Basic abc"), ("Accept", "text/plain")] }
      (by decide)).2.2.2.1 "secret" rfl (by decide)).1,
   ((apiRequest_headers exampleConfig "/-/org"
      { method := none, body := none,
        headers := some [("Authorization", "Basic abc"), ("Accept", "text/plain")] }
      (by decide)).2.2.2.1 "secret" rfl (by decide)).2⟩

/-- C18: the wildcard pattern `*.log` is tested as the unanchored expression `.*.log`, in
which each `.` matches any character but a line terminator: it excludes a name if and only
if the name holds `log` right after a character that is not a line terminator.  Every
other pattern excludes a name only when the name equals it, so that `.env.production` is
kept. -/
theorem wildcard_pattern_behaviour (name : String) :
    parseRegExp (replaceStar "*.log".toList) =
      some [.star .any, .one .any, .one (.chr 'l'), .one (.chr 'o'), .one (.chr 'g')] ∧
    (patternIgnores name "*.log" = true ↔
      ∃ pre c post, name.toList = pre ++ c :: 'l' :: 'o' :: 'g' :: post ∧
        isLineTerminator c = false) ∧
    (∀ pattern ∈ ignorePatterns, pattern ≠ "*.log" →
      (patternIgnores name pattern = true ↔ name = pattern)) ∧
    shouldIgnore ".env.production" = false ∧ shouldIgnore ".env" = true := by
  refine ⟨parseRegExp_log, ?_, ?_, by decide, by decide⟩
  · have h1 : patternIgnores name "*.log" =
        regexTest [.star .any, .one .any, .one (.chr 'l'), .one (.chr 'o'), .one (.chr 'g')]
          name.toList := by
      unfold patternIgnores
      rw [if_pos (by decide), parseRegExp_log]
    rw [h1, wildcard_test_iff]
  · intro pattern hmem hne
    have hstar : pattern.toList.contains '*' = false := by
      simp only [ignorePatterns, List.mem_cons, List.mem_singleton, List.not_mem_nil,
        or_false] at hmem
      rcases hmem with h | h | h | h | h | h
      · subst h; decide
      · subst h; decide
      · subst h; decide
      · subst h; decide
      · subst h; decide
      · exact absurd h hne
    unfold patternIgnores
    rw [hstar]
    simp

/-- C18 on `catalog.txt`, which holds `log` after `a`: the wildcard pattern excludes it. -/
theorem wildcard_pattern_behaviour_witness :
    patternIgnores "catalog.txt" "*.log" = true ∧
    (patternIgnores "catalog.txt" ".env" = true ↔ "catalog.txt" = ".env") :=
  ⟨(wildcard_pattern_behaviour "catalog.txt").2.1.mpr
      ⟨"cat".toList, 'a', ".txt".toList, by decide, by decide⟩,
   (wildcard_pattern_behaviour "catalog.txt").2.2.1 ".env" (by decide) (by decide)⟩

/-! ### Lemmas on the versions `resolveVersion` returns -/

theorem mem_sortInsert (cmp : String → String → Int) (x y : String) (l : List String) :
    y ∈ sortInsert cmp x l ↔ y = x ∨ y ∈ l := by
  induction l with
  | nil => simp [sortInsert]
  | cons z zs ih =>
    simp only [sortInsert]
    split
    · simp
    · simp only [List.mem_cons, ih]
      constructor
      · rintro (h | h | h)
        · exact Or.inr (Or.inl h)
        · exact Or.inl h
        · exact Or.inr (Or.inr h)
      · rintro (h | h | h)
        · exact Or.inr (Or.inl h)
        · exact Or.inl h
        · exact Or.inr (Or.inr h)

theorem mem_sort (cmp : String → String → Int) (y : String) (l : List String) :
    y ∈ sort cmp l ↔ y ∈ l := by
  induction l with
  | nil => simp [sort]
  | cons x xs ih => simp [sort, mem_sortInsert, ih]

theorem lastKey_mem (versions : List String) (v : String)
    (h : lastKey versions = .version v) : v ∈ versions := by
  unfold lastKey at h
  cases hl : versions.getLast? with
  | none => simp [hl] at h
  | some w =>
    simp only [hl, Resolved.version.injEq] at h
    subst h
    exact List.mem_of_getLast?_eq_some hl

/-- A version returned by `resolveVersion` is a key of the versions mapping whenever the
`latest` tag of the document, if it has one, names a published version. -/
theorem resolveVersion_mem_versions (sv : Semver) (metadata : Metadata)
    (requestedVersion : Option String) (v : String)
    (htag : ∀ latest, metadata.distTagsLatest = some latest → latest ≠ "" →
      latest ∈ metadata.versions.map Prod.fst)
    (h : resolveVersion sv metadata requestedVersion = .version v) :
    v ∈ metadata.versions.map Prod.fst := by
  unfold resolveVersion at h
  by_cases hc : (!truthy requestedVersion || requestedVersion == some "latest") = true
  · simp only [hc, if_true] at h
    cases hl : metadata.distTagsLatest with
    | none =>
      simp only [hl] at h
      exact lastKey_mem _ _ h
    | some latest =>
      simp only [hl] at h
      by_cases ht : truthy (some latest) = true
      · simp only [ht, if_true, Resolved.version.injEq] at h
        subst h
        exact htag latest hl (by simpa [truthy] using ht)
      · simp only [ht, Bool.false_eq_true, if_false] at h
        exact lastKey_mem _ _ h
  · simp only [hc, Bool.false_eq_true, if_false] at h
    cases requestedVersion with
    | none => simp at h
    | some requested =>
      simp only [] at h
      by_cases hin : (metadata.versions.map Prod.fst).contains requested = true
      · simp only [hin, if_true, Resolved.version.injEq] at h
        subst h
        exact (contains_eq_true_iff _ _).mp hin
      · simp only [hin, Bool.false_eq_true, if_false] at h
        split at h
        · cases hs : (sort sv.rcompare ((metadata.versions.map Prod.fst).filter
              (fun v => sv.satisfies v requested))).head? with
          | none => simp [hs] at h
          | some w =>
            simp only [hs, Resolved.version.injEq] at h
            subst h
            have hw : w ∈ sort sv.rcompare ((metadata.versions.map Prod.fst).filter
                (fun v => sv.satisfies v requested)) := List.mem_of_mem_head? hs
            exact (List.mem_filter.mp ((mem_sort _ _ _).mp hw)).1
        · cases h

/-! ## Claims on the versions resolved and on an install without specs -/

/-- C19, evaluated where it fails: for a document whose `dist-tags.latest` is `3.0.0` and
whose only published version is `1.0.0`, `resolveVersion` returns `3.0.0` for an absent
version and for `latest`; it is no key of the versions mapping, the lookup of its record
finds nothing, and `install(["p"], {})` records `p` as failed. -/
theorem resolveVersion_stale_tag_not_published :
    resolveVersion Semver.plain staleTagMetadata none = .version "3.0.0" ∧
    resolveVersion Semver.plain staleTagMetadata (some "latest") = .version "3.0.0" ∧
    "3.0.0" ∉ staleTagMetadata.versions.map Prod.fst ∧
    staleTagMetadata.versions.find? (fun e => e.1 == "3.0.0") = none ∧
    runStaleTag.installed = [] ∧ runStaleTag.failed = ["p"] := by
  decide

/-- The names a manifest gives carry no version when none of them has an `@` past its
first character. -/
theorem map_parsePackageSpec_names (names : List String)
    (h : ∀ name ∈ names, '@' ∉ name.toList.drop 1) :
    names.map parsePackageSpec = names.map (fun name => { name := name, version := none }) := by
  apply List.map_congr_left
  intro name hmem
  have h0 := lastIndexOf_of_none_past_zero name (h name hmem)
  simp only [parsePackageSpec]
  rw [if_neg (by omega)]

/-- C20: when `install` is called with no package specs (and `node_modules` can be
created), the specs it processes are the keys of the merge of the manifest's
`dependencies` and `devDependencies`, in order, whatever ranges these declare; when no
name has an `@` past its first character, every package is processed with the requested
version `null`, for which `resolveVersion` returns what it returns for `latest`. -/
theorem install_without_specs (sv : Semver) (env : Nat → Outcome) (pkg : Manifest)
    (options : Options) (h : ∀ name ∈ manifestPackages pkg, '@' ∉ name.toList.drop 1) :
    (install sv true env (some pkg) [] options).processed =
      (manifestPackages pkg).map (fun name => { name := name, version := none }) ∧
    ∀ metadata, resolveVersion sv metadata none = resolveVersion sv metadata (some "latest") := by
  constructor
  · rw [← map_parsePackageSpec_names _ h]
    unfold install
    simp only [readPackageJson, InstallState.init, Bool.not_true, Bool.false_eq_true, if_false,
      List.length_nil, if_true]
    by_cases hk : (manifestPackages pkg).length = 0
    · have hnil : manifestPackages pkg = [] := List.length_eq_zero.mp hk
      unfold manifestPackages at hk hnil
      simp [hk, manifestPackages, hnil]
    · have hk' := hk
      unfold manifestPackages at hk'
      simp only [hk', if_false]
      rw [(installLoop_counts sv options env _ 0 _).1]
      simp [manifestPackages]
  · intro metadata
    simp [resolveVersion, truthy]

/-- C20 on a manifest with `lodash: ^4.0.0`, `@scope/pkg: 1.0.0` and the dev dependency
`mocha: ~9.1.0`: the three are processed in this order with the version `null`. -/
theorem install_without_specs_witness :
    (install Semver.plain true envAllOk (some manifestWithRanges) []
      { saveDev := none, global := none }).processed =
      [{ name := "lodash", version := none }, { name := "@scope/pkg", version := none },
       { name := "mocha", version := none }] ∧
    ∀ metadata, resolveVersion Semver.plain metadata none =
      resolveVersion Semver.plain metadata (some "latest") :=
  install_without_specs Semver.plain envAllOk manifestWithRanges
    { saveDev := none, global := none } (by decide)

end PrivateNpm
